import Mathlib

/-!
Verification development for the doc-mate retrieval and indexing subsystem.

The Lean definitions below are a shallow embedding of the Python sources:
  - src/search/bm25.py        (lexical BM25 index)
  - src/search/hybrid.py      (weighted-rank fusion)
  - src/search/adaptive.py    (query preprocessing)
  - src/search/vec.py         (vector index client, hydration by ids)
  - src/content/reader.py     (Gutenberg book reader and chunker)
  - src/content/store.py      (relational metadata store)
  - src/flows/book_ingest.py  (ingest pipeline)
  - src/flows/book_query.py   (conversation result diversifier)
  - src/ui/utils.py           (whole-document delete)

Python floats are modelled as exact rationals; the transcendental `math.log`
is kept as an explicit function parameter `log` since no claim below depends
on its values.  Strings are ASCII in all inputs the claims mention, and the
character-level helpers model the Python string operations on ASCII text.
-/

namespace DocMate

/-! ## Character and string helpers -/

/-- ASCII uppercase test, code points 65 to 90 (`A` to `Z`). -/
def isAsciiUp (c : Char) : Bool := 65 ≤ c.toNat ∧ c.toNat ≤ 90

/-- Python `str.lower` on an ASCII character: uppercase letters map to the
corresponding lowercase letter, everything else is unchanged. -/
def lowerChar (c : Char) : Char :=
  if isAsciiUp c then Char.ofNat (c.toNat + 32) else c

/-- Python `str.lower` on an ASCII string. -/
def lowerStr (s : String) : String := String.mk (s.data.map lowerChar)

/-- A regex `\w` character in ASCII: letters, digits or underscore. -/
def isWordChar (c : Char) : Bool :=
  (97 ≤ c.toNat ∧ c.toNat ≤ 122) ∨ (65 ≤ c.toNat ∧ c.toNat ≤ 90) ∨
  (48 ≤ c.toNat ∧ c.toNat ≤ 57) ∨ c = '_'

/-- A Python `\s` whitespace character (ASCII subset). -/
def isPySpace (c : Char) : Bool :=
  c = ' ' ∨ c = '\t' ∨ c = '\n' ∨ c = '\r' ∨ c = '\x0b' ∨ c = '\x0c'

/-- Accumulator pass for `runsBy`: `acc` holds the current run reversed. -/
def runsByAux (p : Char → Bool) : List Char → List Char → List (List Char)
  | [], acc => if acc = [] then [] else [acc.reverse]
  | c :: cs, acc =>
    if p c then runsByAux p cs (c :: acc)
    else if acc = [] then runsByAux p cs [] else acc.reverse :: runsByAux p cs []

/-- Maximal runs of characters satisfying `p`; characters failing `p`
separate runs and are discarded.  Used for `re.findall(r"\w+", ...)` and for
`str.split()` (with the whitespace test negated). -/
def runsBy (p : Char → Bool) (l : List Char) : List (List Char) :=
  runsByAux p l []

/-- `re.findall(r"\w+", text)`: the maximal word-character runs of `text`. -/
def wordRuns (s : String) : List String :=
  (runsBy isWordChar s.data).map String.mk

/-- Python `str.split()` with no argument: split on whitespace runs,
discarding empty pieces. -/
def pySplitWs (s : String) : List String :=
  (runsBy (fun c => !isPySpace c) s.data).map String.mk

/-- Python `str.startswith(pre)`: models `String.startsWith` structurally
(the library implementation does not reduce in the kernel). -/
def strStartsWith (s pre : String) : Bool := List.isPrefixOf pre.data s.data

/-- Zero-padded decimal of width 2, Python `f-string` format `02d`. -/
def pad2 (n : Nat) : String :=
  if n < 10 then "0" ++ toString n else toString n

/-- Zero-padded decimal of width 3, Python `f-string` format `03d`. -/
def pad3 (n : Nat) : String :=
  if n < 100 then (if n < 10 then "00" else "0") ++ toString n else toString n

/-! ## Stable sort

Python `sorted` and `list.sort` are stable sorts.  `insStable le x l`
inserts `x` after every element `y` of `l` with `le y x`, so folding it over
a list from the left is a stable insertion sort: elements that compare equal
keep their original relative order. -/

def insStable (le : α → α → Bool) (x : α) : List α → List α
  | [] => [x]
  | y :: ys => if le y x then y :: insStable le x ys else x :: y :: ys

/-- Stable sort (insertion sort), modelling Python `sorted(l, key=...)`
once the key comparison has been folded into `le`. -/
def pySorted (le : α → α → Bool) (l : List α) : List α :=
  l.foldl (fun acc x => insStable le x acc) []

theorem insStable_all_le (le : α → α → Bool) (x : α) (l : List α)
    (h : ∀ y ∈ l, le y x = true) : insStable le x l = l ++ [x] := by
  induction l with
  | nil => rfl
  | cons y ys ih =>
    have hy : le y x = true := h y (by simp)
    have hys : insStable le x ys = ys ++ [x] := ih (fun z hz => h z (by simp [hz]))
    simp [insStable, hy, hys]

/-- If every comparison between elements of `l` yields `true` (for instance
because all sort keys are equal), the stable sort returns `l` unchanged. -/
theorem pySorted_all_true (le : α → α → Bool) (l : List α)
    (h : ∀ x ∈ l, ∀ y ∈ l, le x y = true) : pySorted le l = l := by
  suffices h2 : ∀ (acc : List α), (∀ x ∈ acc, ∀ y ∈ l, le x y = true) →
      List.foldl (fun acc x => insStable le x acc) acc l = acc ++ l by
    simpa using h2 [] (by simp)
  induction l with
  | nil => simp
  | cons z zs ih =>
    intro acc hacc
    have hstep : insStable le z acc = acc ++ [z] :=
      insStable_all_le le z acc (fun y hy => hacc y hy z (by simp))
    simp only [List.foldl_cons, hstep]
    have := ih (fun x hx y hy => h x (by simp [hx]) y (by simp [hy]))
      (acc ++ [z])
      (by
        intro x hx y hy
        rcases List.mem_append.mp hx with hx1 | hx1
        · exact hacc x hx1 y (by simp [hy])
        · have : x = z := by simpa using hx1
          subst this
          exact h x (by simp) y (by simp [hy]))
    simpa [List.append_assoc] using this

/-! ## Ordered dictionaries

Python dictionaries preserve insertion order and have unique keys.  We model
`defaultdict(float)` accumulation (`d[k] += v`) on an association list:
update the existing entry in place, or append a fresh one at the end. -/

/-- Value of key `k` in the ordered dictionary, defaulting to `0`. -/
def dictGetD (m : List (String × ℚ)) (k : String) : ℚ :=
  match m.lookup k with
  | some v => v
  | none => 0

/-- `d[k] += v` on a `defaultdict(float)`: Python dictionaries keep
insertion order and have unique keys, so updating an existing key leaves it
in place and a fresh key is appended at the end.  On an association list
with unique keys this is: replace the first entry with key `k`, or append
`(k, v)` at the end. -/
def dictAdd (m : List (String × ℚ)) (k : String) (v : ℚ) : List (String × ℚ) :=
  match m with
  | [] => [(k, v)]
  | p :: ps => if p.1 = k then (p.1, p.2 + v) :: ps else p :: dictAdd ps k v

theorem dictGetD_dictAdd (m : List (String × ℚ)) (k x : String) (v : ℚ) :
    dictGetD (dictAdd m k v) x = dictGetD m x + (if x = k then v else 0) := by
  induction m with
  | nil =>
    by_cases hx : x = k
    · simp [dictAdd, dictGetD, List.lookup, hx]
    · have hbeq : (x == k) = false := by simp [hx]
      simp [dictAdd, dictGetD, List.lookup, hbeq, hx]
  | cons p ps ih =>
    by_cases hp : p.1 = k
    · by_cases hxp : x = p.1
      · have hbeq : (x == p.1) = true := by simp [hxp]
        simp [dictAdd, dictGetD, List.lookup, hp, hbeq, hxp, hxp.trans hp]
      · have hbeq : (x == p.1) = false := by simp [hxp]
        have hxk : x ≠ k := fun h => hxp (h.trans hp.symm)
        have hbk : (x == k) = false := by simp [hxk]
        simp [dictAdd, dictGetD, List.lookup, hp, hbeq, hbk, hxk]
    · by_cases hxp : x = p.1
      · have hbeq : (x == p.1) = true := by simp [hxp]
        have hxk : x ≠ k := fun h => hp ((hxp.symm.trans h) ▸ rfl)
        simp [dictAdd, dictGetD, List.lookup, hp, hbeq, hxk]
      · have hbeq : (x == p.1) = false := by simp [hxp]
        simpa [dictAdd, dictGetD, List.lookup, hp, hbeq] using ih

/-! ## Lexical BM25 index (src/search/bm25.py) -/

/-- A chunk as the lexical index consumes it: the `id` and `text` fields of
the chunk dictionary (`build_index` reads no other field). -/
structure ChunkLT where
  id : String
  text : String
deriving DecidableEq, Repr

/-- The module-level stopword set of src/search/bm25.py. -/
def BM25_STOPWORDS : List String := ["the", "a", "an", "and", "of", "in", "to"]

/-- `simple_tokenize` from src/search/bm25.py: lowercase, extract the
maximal word-character runs, and drop stopwords. -/
def simple_tokenize (text : String) : List String :=
  (wordRuns (lowerStr text)).filter (fun w => ¬ w ∈ BM25_STOPWORDS)

/-- The state of `BM25Retriever` after `build_index`.  `avgdl` is a rational
standing for the Python float; `k1 = 1.5` and `b = 0.75` are the defaults.
The `idf` dictionary is not stored: it is recomputed on demand by `idfOf`
from the same document-frequency data, which agrees with the stored
dictionary entry for every term occurring in some document and with the
`self.idf.get(term, 0)` fallback for every other term. -/
structure BM25State where
  k1 : ℚ
  b : ℚ
  docs : List (List String)
  doc_lens : List Nat
  avgdl : ℚ
  N : Nat
  ids : List String
  raw_docs : List String
deriving DecidableEq, Repr

/-- Document frequency of `w`: the number of indexed documents containing
`w`.  The source accumulates `self.df[word] += 1` over `set(doc)` for each
document, which counts exactly the documents containing the word. -/
def dfCount (docs : List (List String)) (w : String) : Nat :=
  (docs.filter (fun d => w ∈ d)).length

/-- `BM25Retriever.build_index`: tokenize every chunk once and store the
parallel arrays.  `avgdl = sum(doc_lens)/N if N > 0 else 0`. -/
def build_index (chunks : List ChunkLT) : BM25State :=
  let docs := chunks.map (fun c => simple_tokenize c.text)
  let doc_lens := docs.map List.length
  { k1 := 3/2
    b := 3/4
    docs := docs
    doc_lens := doc_lens
    avgdl := if docs.length > 0 then ((doc_lens.map (fun n => (n : ℚ))).sum) / (docs.length : ℚ) else 0
    N := docs.length
    ids := chunks.map (fun c => c.id)
    raw_docs := chunks.map (fun c => c.text) }

/-- The `idf` value `self.idf.get(term, 0)`: terms absent from every
document are not in the dictionary and give 0, terms present give
`log((N - df + 0.5)/(df + 0.5) + 1)`.  `log` abstracts `math.log`. -/
def idfOf (log : ℚ → ℚ) (st : BM25State) (w : String) : ℚ :=
  let df := dfCount st.docs w
  if df = 0 then 0
  else log (((st.N : ℚ) - (df : ℚ) + 1/2) / ((df : ℚ) + 1/2) + 1)

/-- `BM25Retriever.score`: sum over the query tokens present in document
`idx` of `idf * (tf*(k1+1)) / (tf + k1*(1 - b + b*doc_len/avgdl))`.
`Counter(doc)[term]` is the number of occurrences of `term` in the token
list, and `term not in freqs` is `tf = 0`. -/
def bm25_score (log : ℚ → ℚ) (st : BM25State) (query_tokens : List String) (idx : Nat) : ℚ :=
  let doc := st.docs.getD idx []
  let doc_len := st.doc_lens.getD idx 0
  query_tokens.foldl
    (fun acc term =>
      let tf := doc.count term
      if tf = 0 then acc
      else
        acc + idfOf log st term *
          ((tf : ℚ) * (st.k1 + 1)) /
          ((tf : ℚ) + st.k1 * (1 - st.b + st.b * (doc_len : ℚ) / st.avgdl)))
    0

/-- One entry of a retriever result list: the dictionary
`id, text, score` built by `BM25Retriever.search` (and the shape consumed by
the fusion functions, which read only the `id`). -/
structure SearchResult where
  id : String
  text : String
  score : ℚ
deriving DecidableEq, Repr

/-- `BM25Retriever.search`: tokenize the query, score either all documents
or only those whose id starts with `slug ++ "_"` (Python `if book_slug:`
treats the empty string as no filter), stable-sort by descending score and
keep the first `topk`. -/
def bm25_search (log : ℚ → ℚ) (st : BM25State) (query : String) (topk : Nat)
    (book_slug : Option String) : List SearchResult :=
  let query_tokens := simple_tokenize query
  let useFilter := match book_slug with
    | some s => s != ""
    | none => false
  let idxs :=
    if useFilter then
      (List.range st.N).filter
        (fun i => strStartsWith (st.ids.getD i "") ((book_slug.getD "") ++ "_"))
    else List.range st.N
  let scores := idxs.map (fun i => (i, bm25_score log st query_tokens i))
  let ranked := (pySorted (fun a b => decide (b.2 ≤ a.2)) scores).take topk
  ranked.map (fun p => ⟨st.ids.getD p.1 "", st.raw_docs.getD p.1 "", p.2⟩)

/-! ## Weighted-rank fusion (src/search/hybrid.py) -/

/-- The accumulation loop
`for rank, c in enumerate(results, start=1): scores[c.id] += w * (1.0/rank)`
of `FusionRetriever.weighted_fusion`, with `rank` the 1-based position. -/
def fuseAdd (w : ℚ) : Nat → List SearchResult → List (String × ℚ) → List (String × ℚ)
  | _, [], m => m
  | rank, r :: rest, m => fuseAdd w (rank + 1) rest (dictAdd m r.id (w * (1 / (rank : ℚ))))

/-- The `scores` dictionary of `FusionRetriever.weighted_fusion` after both
accumulation loops: BM25 results contribute `alpha/rank`, embedding results
contribute `(1 - alpha)/rank`. -/
def fusionScores (alpha : ℚ) (bm25_results embed_results : List SearchResult) :
    List (String × ℚ) :=
  fuseAdd (1 - alpha) 1 embed_results (fuseAdd alpha 1 bm25_results [])

/-- `FusionRetriever.weighted_fusion`: accumulate the weighted reciprocal
ranks, stable-sort the dictionary items by descending score, return the
first `topk` ids. -/
def weighted_fusion (alpha : ℚ) (bm25_results embed_results : List SearchResult)
    (topk : Nat) : List String :=
  ((pySorted (fun a b => decide (b.2 ≤ a.2)) (fusionScores alpha bm25_results embed_results)).take
    topk).map (fun p => p.1)

/-- Specification-side reciprocal-rank sum: the total `1/rank` contribution
of id `x` over a result list whose first element has rank `k`.  For a list
with pairwise distinct ids this is `1/r` when `x` occupies 1-based rank `r`
and `0` when `x` is absent. -/
def rankContrib (x : String) : Nat → List SearchResult → ℚ
  | _, [] => 0
  | k, r :: rest => (if r.id = x then 1 / (k : ℚ) else 0) + rankContrib x (k + 1) rest

/-! ## Adaptive query preprocessing (src/search/adaptive.py) -/

/-- The `STOP_WORDS` class attribute of `AdaptiveRetriever`. -/
def ADAPTIVE_STOP_WORDS : List String :=
  ["what", "when", "where", "who", "why", "how", "does", "do", "did",
   "is", "are", "was", "were", "the", "a", "an", "about", "in", "on", "at",
   "to", "for", "of", "with", "by", "from", "this", "that", "these", "those",
   "and", "or", "but"]

/-- Python `re.sub(r"[^\w\s-]", " ", s)`: every character that is not a word
character, whitespace, or a hyphen is replaced by a space. -/
def cleanQuery (s : String) : String :=
  String.mk (s.data.map (fun c => if isWordChar c ∨ isPySpace c ∨ c = '-' then c else ' '))

/-- The filtered word list of `AdaptiveRetriever.preprocess_query`:
lowercase, strip punctuation except hyphens, split on whitespace, and keep
the words that are neither stop words nor of length at most 2. -/
def preprocessWords (query : String) : List String :=
  (pySplitWs (cleanQuery (lowerStr query))).filter
    (fun w => ¬ w ∈ ADAPTIVE_STOP_WORDS ∧ w.length > 2)

/-- `AdaptiveRetriever.preprocess_query`: join the filtered words with
single spaces, falling back to the original query when nothing remains. -/
def preprocess_query (query : String) : String :=
  let filtered_words := preprocessWords query
  if filtered_words = [] then query
  else String.intercalate " " filtered_words

/-! ## Gutenberg book reader (src/content/reader.py)

The reader strips the public-domain prelude and epilogue markers with
`re.search(r"\*\*\* START OF.*\*\*\*", text)` and the END analogue, splits
into sections with `re.split(split_pattern, text, flags=IGNORECASE|MULTILINE)`
and token-chunks each section.  The regular expressions are embedded as
specialized matchers with exact `re` semantics for the patterns involved:
`.` does not match a newline, `.*` is greedy, `re.search` returns the
leftmost match, `^` with MULTILINE matches at position 0 and after every
newline.  The claims exercise the split pattern `^CHAPTER [IVX]+\.`. -/

/-- Index (within `line`, a newline-free segment) of the last occurrence of
the literal `"***"`, if any: the greedy `.*` of `\*\*\* START OF.*\*\*\*`
makes the match end at the last `"***"` of the line. -/
def lastTripleIdx (line : List Char) : Option Nat :=
  ((List.range line.length).filter
    (fun q => List.isPrefixOf ['*', '*', '*'] (line.drop q))).getLast?

/-- Leftmost match of `marker ++ ".*" ++ "\*\*\*"` (one line, greedy `.*`):
returns the span `(matchStart, matchEnd)` in the scanned character list.
`p` is the index of the head of `cs` in the full text. -/
def searchMarkerAux (marker : List Char) : List Char → Nat → Option (Nat × Nat)
  | [], _ => none
  | rem@(_ :: rest), p =>
    let here : Option (Nat × Nat) :=
      if List.isPrefixOf marker rem then
        let line := (rem.drop marker.length).takeWhile (fun c => c ≠ '\n')
        match lastTripleIdx line with
        | some q => some (p, p + marker.length + q + 3)
        | none => none
      else none
    match here with
    | some r => some r
    | none => searchMarkerAux marker rest (p + 1)

/-- `GutenbergReader._strip_gutenberg`: if both the START and END marker
regexes match, keep `text[start_match.end() : end_match.start()]` (a Python
slice, empty when the bounds cross); otherwise return the text unchanged. -/
def strip_gutenberg (text : String) : String :=
  let cs := text.data
  match searchMarkerAux "*** START OF".data cs 0, searchMarkerAux "*** END OF".data cs 0 with
  | some (_, se), some (es, _) => String.mk ((cs.take es).drop se)
  | _, _ => text

/-- Match of the split pattern `^CHAPTER [IVX]+\.` (IGNORECASE) at the head
of `rem`, which the caller guarantees is at a line start: the literal
`CHAPTER ` case-insensitively, then a maximal nonempty run of `IVXivx`,
then a literal dot.  Returns the match length. -/
def matchChapterLen (rem : List Char) : Option Nat :=
  let header := "chapter ".data
  if (rem.take 8).map lowerChar = header then
    let tail := rem.drop 8
    let run := tail.takeWhile (fun c => c ∈ ['I', 'V', 'X', 'i', 'v', 'x'])
    if run.length ≥ 1 then
      match tail.drop run.length with
      | '.' :: _ => some (8 + run.length + 1)
      | _ => none
    else none
  else none

/-- `re.split` scan for the pattern `^CHAPTER [IVX]+\.` with
IGNORECASE | MULTILINE: walk the text, and at every line start where the
pattern matches, close the current piece and skip the match.  `fuel` is an
upper bound on the number of steps (the text length suffices since every
step consumes at least one character). -/
def splitChapterAux : Nat → List Char → Bool → List Char → List (List Char)
  | 0, _, _, acc => [acc.reverse]
  | _ + 1, [], _, acc => [acc.reverse]
  | fuel + 1, cs@(c :: rest), atStart, acc =>
    match (if atStart then matchChapterLen cs else none) with
    | some n => acc.reverse :: splitChapterAux fuel (cs.drop n) false []
    | none => splitChapterAux fuel rest (c = '\n') (c :: acc)

/-- `GutenbergReader._section_split` for the pattern `^CHAPTER [IVX]+\.`. -/
def section_split_chapter (text : String) : List String :=
  (splitChapterAux (text.data.length + 1) text.data true []).map String.mk

/-- Python `range(0, len, step)` for `step ≥ 1`: the chunk start offsets of
`GutenbergReader._chunk_split`. -/
def pyRangeStep (len step : Nat) : List Nat :=
  (List.range ((len + step - 1) / step)).map (fun i => i * step)

/-- `GutenbergReader._chunk_split`: encode the section, then decode each
window of `max_tokens` tokens advancing by `max_tokens - overlap`.
`enc`/`dec` abstract the deterministic `tiktoken` cl100k_base encoder,
which no claim pins down numerically. -/
def chunk_split (enc : String → List Nat) (dec : List Nat → String)
    (max_tokens overlap : Nat) (sec : String) : List String :=
  let tokens := enc sec
  (pyRangeStep tokens.length (max_tokens - overlap)).map
    (fun i => dec ((tokens.drop i).take max_tokens))

/-- The chunk id `f-string` of `GutenbergReader._parse_into_chunks` (and of
the other parsers): `slug _ sid+1:02d _ cid+1:03d _ hash7` with `sid`, `cid`
the 0-based section and chunk indices. -/
def chunk_id (slug : String) (sid cid : Nat) (hash7 : String) : String :=
  slug ++ "_" ++ pad2 (sid + 1) ++ "_" ++ pad3 (cid + 1) ++ "_" ++ hash7

/-- A chunk dictionary as produced by `GutenbergReader._parse_into_chunks`. -/
structure ChunkFull where
  id : String
  text : String
  num_tokens : Nat
  num_chars : Nat
deriving DecidableEq, Repr

/-- `GutenbergReader._parse_into_chunks`: split the stripped text into
sections, token-chunk each, and emit chunk dictionaries with the id built
from the 1-based section and chunk ordinals and a 7-character content hash.
`hash` abstracts `TextReader.simple_hash` (the first 7 hex digits of the
md5 of the chunk text). -/
def parse_into_chunks (enc : String → List Nat) (dec : List Nat → String)
    (hash : String → String) (slug : String) (sections : List String)
    (max_tokens overlap : Nat) : List ChunkFull :=
  (sections.enum).flatMap
    (fun s =>
      ((chunk_split enc dec max_tokens overlap s.2).enum).map
        (fun t => ⟨chunk_id slug s.1 t.1 (hash t.2), t.2, (enc t.2).length, t.2.length⟩))

/-- `GutenbergReader.parse` after the file read: strip the Gutenberg
markers, then parse into chunks (split pattern `^CHAPTER [IVX]+\.`). -/
def gutenberg_parse (enc : String → List Nat) (dec : List Nat → String)
    (hash : String → String) (slug text : String) (max_tokens overlap : Nat) :
    List ChunkFull :=
  parse_into_chunks enc dec hash slug (section_split_chapter (strip_gutenberg text))
    max_tokens overlap

/-! Concrete instances for the abstract tokenizer and hash.  `charEnc` and
`charDec` form a one-token-per-character codec (a valid deterministic
tokenizer); `modelHash` is a deterministic stand-in for
`md5(text).hexdigest()[:7]` producing 7 lowercase hex digits (no claim
depends on the md5 digit values, only on determinism and shape). -/

def charEnc (s : String) : List Nat := s.data.map Char.toNat

def charDec (l : List Nat) : String := String.mk (l.map Char.ofNat)

/-- ASCII hex digit of a value below 16. -/
def hexDigit (n : Nat) : Char :=
  if n < 10 then Char.ofNat (48 + n) else Char.ofNat (87 + n)

/-- Seven lowercase hex digits of `n mod 16^7`, most significant first. -/
def toHex7 (n : Nat) : String :=
  String.mk ((List.range 7).map (fun i => hexDigit (n / 16 ^ (6 - i) % 16)))

/-- Deterministic 7-hex-digit content hash standing in for
`TextReader.simple_hash` (md5 truncated to 7 hex digits). -/
def modelHash (s : String) : String :=
  toHex7 (s.data.foldl (fun a c => (a * 131 + c.toNat) % 16 ^ 7) 7)

/-- Hex-character test `[0-9a-f]`. -/
def isHexChar (c : Char) : Bool :=
  (48 ≤ c.toNat ∧ c.toNat ≤ 57) ∨ (97 ≤ c.toNat ∧ c.toNat ≤ 102)

/-- The claim's chunk-id shape `slug_0S_001_hhhhhhh` with `S` the section
digit set and a 7-hex-digit tail: `cs` matches when it starts with
`slug ++ "_0" ++ [one digit of ds] ++ "_001_"` and ends in 7 hex digits. -/
def idShapeOk (slug : String) (ds : List Char) (s : String) : Bool :=
  match (s.data.drop slug.length).drop 1 with
  | d1 :: d2 :: tail =>
    s.data.take (slug.length + 1) = (slug ++ "_").data ∧
    d1 = '0' ∧ d2 ∈ ds ∧
    tail.take 5 = "_001_".data ∧
    (tail.drop 5).length = 7 ∧ (tail.drop 5).all isHexChar
  | _ => false

/-- Prefix of a string up to (excluding) its first underscore — the reading
of "the chunk id's prefix up to the first underscore" in the data-model
invariant. -/
def upToUnderscore (s : String) : String :=
  String.mk (s.data.takeWhile (fun c => c ≠ '_'))

/-- The documented slug format `[a-z0-9_-]{2,20}`. -/
def slugFormatOk (s : String) : Bool :=
  2 ≤ s.length ∧ s.length ≤ 20 ∧
  s.data.all (fun c =>
    (97 ≤ c.toNat ∧ c.toNat ≤ 122) ∨ (48 ≤ c.toNat ∧ c.toNat ≤ 57) ∨ c = '_' ∨ c = '-')

/-! ## Vector index client (src/search/vec.py) -/

/-- The payload fields of a stored point that `get_chunks_by_ids` reads. -/
structure VPayload where
  id : String
  text : String
deriving DecidableEq, Repr

/-- State of the external Qdrant collection: whether the collection exists,
the stored points keyed by integer point id, and the point ids whose
retrieval raises a transport error (modelling the `except Exception`
branch of `get_chunks_by_ids`). -/
structure QdrantState where
  collectionExists : Bool
  points : List (Nat × VPayload)
  errIds : List Nat
deriving DecidableEq, Repr

/-- `client.retrieve(collection, ids=[pid])`: the list of stored points
with the requested id (empty when the point does not exist). -/
def qdrant_retrieve (st : QdrantState) (pid : Nat) : List VPayload :=
  (st.points.filter (fun p => p.1 == pid)).map (fun p => p.2)

/-- `SemanticRetriever.get_chunks_by_ids`.  `pointIdOf` abstracts the key
derivation `int(md5(chunk_id).hexdigest()[:16], 16) % 10**9`.  For each
requested id: retrieve by integer key; append the payload when a point is
returned; append nothing when the retrieval returns no point; append the
`"[Text not found]"` sentinel when the retrieval raises. -/
def get_chunks_by_ids (pointIdOf : String → Nat) (st : QdrantState)
    (chunk_ids : List String) : List VPayload :=
  if st.collectionExists then
    chunk_ids.foldl
      (fun results cid =>
        let pid := pointIdOf cid
        if pid ∈ st.errIds then results ++ [⟨cid, "[Text not found]"⟩]
        else
          match qdrant_retrieve st pid with
          | [] => results
          | p :: _ => results ++ [⟨p.id, p.text⟩])
      []
  else []

/-- Per-id hydration outcome implied by the source loop: a sentinel for an
erring id, the stored payload for a found id, nothing for a missing id. -/
def hydrateEntry (pointIdOf : String → Nat) (st : QdrantState) (cid : String) :
    Option VPayload :=
  if pointIdOf cid ∈ st.errIds then some ⟨cid, "[Text not found]"⟩
  else
    match qdrant_retrieve st (pointIdOf cid) with
    | [] => none
    | p :: _ => some ⟨p.id, p.text⟩

/-- Concrete stand-in for the md5-derived point key (deterministic,
value-irrelevant to the claims). -/
def modelPointId (s : String) : Nat :=
  (s.data.foldl (fun a c => a * 131 + c.toNat) 7) % 10 ^ 9

/-! ## Conversation result diversifier (src/flows/book_query.py) -/

/-- A Python `datetime` at second granularity (the parsed timestamp formats
carry no sub-second fields). -/
structure PyDateTime where
  year : Nat
  month : Nat
  day : Nat
  hour : Nat
  minute : Nat
  second : Nat
deriving DecidableEq, Repr

/-- Days since 1970-01-01 of a civil date (the standard
days-from-civil algorithm; all integer divisions act on non-negative
operands, so truncation and flooring agree). -/
def civilDays (y : Int) (m d : Nat) : Int :=
  let y2 : Int := if m ≤ 2 then y - 1 else y
  let era : Int := (if 0 ≤ y2 then y2 else y2 - 399) / 400
  let yoe : Int := y2 - era * 400
  let mp : Int := (m : Int) + (if 2 < m then -3 else 9)
  let doy : Int := (153 * mp + 2) / 5 + (d : Int) - 1
  let doe : Int := yoe * 365 + yoe / 4 - yoe / 100 + doy
  era * 146097 + doe - 719468

/-- Absolute seconds of a datetime; differences of this quantity are
`(t1 - t2).total_seconds()` and its order is the `datetime` order. -/
def dtSecs (t : PyDateTime) : Int :=
  civilDays t.year t.month t.day * 86400 + t.hour * 3600 + t.minute * 60 + t.second

/-- `datetime.max` (at second granularity). -/
def pyDatetimeMax : PyDateTime := ⟨9999, 12, 31, 23, 59, 59⟩

/-- ASCII digit test. -/
def isDigit (c : Char) : Bool := 48 ≤ c.toNat ∧ c.toNat ≤ 57

/-- Numeric value of a digit list. -/
def digitsToNat (cs : List Char) : Nat :=
  cs.foldl (fun a c => a * 10 + (c.toNat - 48)) 0

/-- `strptime` date part `%Y-%m-%d` on zero-padded input (every timestamp
the sources and tests feed to `_parse_timestamp` is zero-padded, on which
this strict reading agrees with `strptime`); returns the date and the rest
of the characters. -/
def parseYmd (cs : List Char) : Option (Nat × Nat × Nat × List Char) :=
  match cs with
  | y1 :: y2 :: y3 :: y4 :: '-' :: m1 :: m2 :: '-' :: d1 :: d2 :: rest =>
    if ([y1, y2, y3, y4, m1, m2, d1, d2].all isDigit) then
      let y := digitsToNat [y1, y2, y3, y4]
      let mo := digitsToNat [m1, m2]
      let d := digitsToNat [d1, d2]
      if 1 ≤ mo ∧ mo ≤ 12 ∧ 1 ≤ d ∧ d ≤ 31 then some (y, mo, d, rest) else none
    else none
  | _ => none

/-- `strptime` time part `%H:%M:%S` consuming the whole rest. -/
def parseHms (cs : List Char) : Option (Nat × Nat × Nat) :=
  match cs with
  | [h1, h2, ':', m1, m2, ':', s1, s2] =>
    if ([h1, h2, m1, m2, s1, s2].all isDigit) then
      let h := digitsToNat [h1, h2]
      let mi := digitsToNat [m1, m2]
      let s := digitsToNat [s1, s2]
      if h ≤ 23 ∧ mi ≤ 59 ∧ s ≤ 59 then some (h, mi, s) else none
    else none
  | _ => none

/-- `strptime` time part `%H:%M` consuming the whole rest. -/
def parseHm (cs : List Char) : Option (Nat × Nat) :=
  match cs with
  | [h1, h2, ':', m1, m2] =>
    if ([h1, h2, m1, m2].all isDigit) then
      let h := digitsToNat [h1, h2]
      let mi := digitsToNat [m1, m2]
      if h ≤ 23 ∧ mi ≤ 59 then some (h, mi) else none
    else none
  | _ => none

/-- `_parse_timestamp` from src/flows/book_query.py: `None` or falsy input
gives `None`; otherwise try `%Y-%m-%d %H:%M:%S`, `%Y-%m-%d %H:%M`,
`%Y-%m-%d` in that order (missing time fields default to zero). -/
def parse_timestamp (s : Option String) : Option PyDateTime :=
  match s with
  | none => none
  | some str =>
    if str = "" then none
    else
      match parseYmd str.data with
      | none => none
      | some (y, mo, d, rest) =>
        match rest with
        | [] => some ⟨y, mo, d, 0, 0, 0⟩
        | ' ' :: timePart =>
          match parseHms timePart with
          | some (h, mi, sec) => some ⟨y, mo, d, h, mi, sec⟩
          | none =>
            match parseHm timePart with
            | some (h, mi) => some ⟨y, mo, d, h, mi, 0⟩
            | none => none
        | _ => none

/-- A retrieved chunk as the diversifier consumes it: id, text and a
string-valued metadata dictionary. -/
structure CChunk where
  id : String
  text : String
  metadata : List (String × String)
deriving DecidableEq, Repr

/-- `metadata.get(k)`. -/
def metaGet (m : List (String × String)) (k : String) : Option String := m.lookup k

/-- Python `a or b` on optional strings: the left value unless it is falsy
(`None` or the empty string). -/
def pyOrStr (a b : Option String) : Option String :=
  match a with
  | some s => if s = "" then b else some s
  | none => b

/-- The enriched entries `chunks_with_meta` of
`_diversify_conversation_results`. -/
structure DivItem where
  chunk : CChunk
  timestamp : Option PyDateTime
  speaker : Option String
  original_rank : Nat
deriving DecidableEq, Repr

/-- The sort key comparison
`(x.timestamp if x.timestamp else datetime.max, x.original_rank)`
in Python tuple order. -/
def divLe (a b : DivItem) : Bool :=
  let ka := dtSecs (a.timestamp.getD pyDatetimeMax)
  let kb := dtSecs (b.timestamp.getD pyDatetimeMax)
  decide (ka < kb ∨ (ka = kb ∧ a.original_rank ≤ b.original_rank))

/-- `speaker_counts.get(speaker, 0)`. -/
def countOf (counts : List (String × Nat)) (sp : String) : Nat :=
  (counts.lookup sp).getD 0

/-- `speaker_counts[speaker] = speaker_counts.get(speaker, 0) + 1`. -/
def bumpCount (counts : List (String × Nat)) (sp : String) : List (String × Nat) :=
  match counts with
  | [] => [(sp, 1)]
  | p :: ps => if p.1 = sp then (p.1, p.2 + 1) :: ps else p :: bumpCount ps sp

/-- The temporal-spacing test: skip when both the candidate and the last
selected chunk carry timestamps less than 300 seconds apart (absolute
difference, as in the source). -/
def tooClose (t last : Option PyDateTime) : Bool :=
  match t, last with
  | some a, some b => (dtSecs a - dtSecs b).natAbs < 300
  | _, _ => false

/-- The greedy selection loop of `_diversify_conversation_results`.  Note
the source increments the speaker count before the temporal check, so a
chunk rejected for temporal proximity still consumes speaker quota; and
`last_timestamp` is overwritten (possibly with `None`) at every selection. -/
def diversifyGo : List DivItem → List CChunk → List (String × Nat) → Option PyDateTime → Nat → List CChunk
  | [], selected, _, _, _ => selected
  | it :: rest, selected, counts, last, target =>
    match (match it.speaker with
           | some s => if s = "" then none else some s
           | none => none) with
    | some sp =>
      if countOf counts sp ≥ 2 then diversifyGo rest selected counts last target
      else
        let counts2 := bumpCount counts sp
        if tooClose it.timestamp last then diversifyGo rest selected counts2 last target
        else
          let selected2 := selected ++ [it.chunk]
          if target ≤ selected2.length then selected2
          else diversifyGo rest selected2 counts2 it.timestamp target
    | none =>
      if tooClose it.timestamp last then diversifyGo rest selected counts last target
      else
        let selected2 := selected ++ [it.chunk]
        if target ≤ selected2.length then selected2
        else diversifyGo rest selected2 counts it.timestamp target

/-- `_diversify_conversation_results`: a no-op on at most three chunks;
otherwise extract `(timestamp, speaker, original_rank)` per chunk, stable
sort by `(timestamp or datetime.max, original_rank)`, and greedily select
under the speaker cap and the 300-second spacing rule, stopping at
`target_count` (default `max(5, len(chunks) // 2)`). -/
def diversify_conversation_results (chunks : List CChunk) (target_count : Option Nat) :
    List CChunk :=
  if chunks.length ≤ 3 then chunks
  else
    let target := target_count.getD (max 5 (chunks.length / 2))
    let items := chunks.enum.map
      (fun e =>
        let ts := parse_timestamp
          (pyOrStr (pyOrStr (metaGet e.2.metadata "timestamp") (metaGet e.2.metadata "created_at"))
            (metaGet e.2.metadata "timestamp_start"))
        { chunk := e.2
          timestamp := ts
          speaker := pyOrStr (metaGet e.2.metadata "speaker") (metaGet e.2.metadata "author")
          original_rank := e.1 : DivItem })
    diversifyGo (pySorted divLe items) [] [] none target

/-! ## Relational store (src/content/store.py) and whole-document delete
(src/ui/utils.py) -/

/-- A row of the `books` table (the columns the claims touch). -/
structure BookRow where
  book_id : Nat
  slug : String
  title : String
  doc_type : String
  num_chunks : Nat
  num_chars : Nat
deriving DecidableEq, Repr

/-- The relational store: `books`, `chapter_summaries (book_id, chapter_id,
summary)` and `book_summaries (book_id, summary)`, the latter two holding a
foreign key to `books` with ON DELETE CASCADE (per the schema described in
the `delete_book` docstring). -/
structure DBState where
  books : List BookRow
  chapter_summaries : List (Nat × Nat × String)
  book_summaries : List (Nat × String)
deriving DecidableEq, Repr

/-- Python falsiness of the resolved id (`if not book_id:`): `None` and
`0` both count as not found. -/
def pyFalsyNat (o : Option Nat) : Bool :=
  match o with
  | none => true
  | some n => n == 0

/-- `PgresStore._resolve_book_id` for a string identifier: exact slug match
first, then case-insensitive title match. -/
def resolve_book_id (db : DBState) (ident : String) : Option Nat :=
  match db.books.find? (fun b => b.slug == ident) with
  | some b => some b.book_id
  | none =>
    match db.books.find? (fun b => lowerStr b.title == lowerStr ident) with
    | some b => some b.book_id
    | none => none

/-- `PgresStore.book_exists`. -/
def book_exists (db : DBState) (slug : String) : Bool :=
  db.books.any (fun b => b.slug == slug)

/-- `PgresStore.delete_book`: resolve the identifier, delete the `books`
row by id (the FK cascade removes its chapter and book summaries), return
whether a row was deleted.  No search index is touched. -/
def pg_delete_book (db : DBState) (ident : String) : DBState × Bool :=
  let bid := resolve_book_id db ident
  if pyFalsyNat bid then (db, false)
  else
    let i := bid.getD 0
    let deleted := db.books.any (fun b => b.book_id == i)
    ({ books := db.books.filter (fun b => b.book_id != i)
       chapter_summaries := db.chapter_summaries.filter (fun r => r.1 != i)
       book_summaries := db.book_summaries.filter (fun r => r.1 != i) }, deleted)

/-- Modelled from the spec: `PgresStore.store_document` is called by
`store_to_db` in src/flows/book_ingest.py but is defined nowhere under
src/ (the file src/content/store.py only has the older
`store_book_metadata`).  Spec section 4.8 specifies it as
"insert-or-replace document metadata (by slug)" returning the internal id;
fresh rows get an unused id as a serial column would. -/
def store_document (db : DBState) (slug title doc_type : String)
    (num_chunks num_chars : Nat) : DBState × Nat :=
  match db.books.find? (fun b => b.slug == slug) with
  | some b =>
    let newBooks := db.books.map (fun r =>
      if r.slug == slug then
        { r with title := title, doc_type := doc_type, num_chunks := num_chunks, num_chars := num_chars }
      else r)
    ({ db with books := newBooks }, b.book_id)
  | none =>
    let newId := (db.books.map (fun b => b.book_id)).foldl max 0 + 1
    let newRow : BookRow :=
      { book_id := newId, slug := slug, title := title, doc_type := doc_type,
        num_chunks := num_chunks, num_chars := num_chars }
    ({ db with books := db.books ++ [newRow] }, newId)

/-- `PgresStore.store_summaries`: resolve the identifier (raising when the
falsy check fires), then upsert each chapter summary on the key
`(book_id, chapter_id)` and the book summary on `book_id`. -/
def store_summaries (db : DBState) (ident : String)
    (chapter_summaries : List (Nat × String)) (book_summary : String) :
    Except String DBState :=
  let bid := resolve_book_id db ident
  if pyFalsyNat bid then .error ("Book not found: " ++ ident)
  else
    let i := bid.getD 0
    let chs := chapter_summaries.foldl
      (fun rows c =>
        if rows.any (fun r => r.1 == i && r.2.1 == c.1) then
          rows.map (fun r => if r.1 == i && r.2.1 == c.1 then (r.1, r.2.1, c.2) else r)
        else rows ++ [(i, c.1, c.2)])
      db.chapter_summaries
    let bs :=
      if db.book_summaries.any (fun r => r.1 == i) then
        db.book_summaries.map (fun r => if r.1 == i then (r.1, book_summary) else r)
      else db.book_summaries ++ [(i, book_summary)]
    .ok { db with chapter_summaries := chs, book_summaries := bs }

/-- `num_chunks` recorded for a slug (`None`-free read of the books row). -/
def recordedNumChunks (db : DBState) (slug : String) : Option Nat :=
  (db.books.find? (fun b => b.slug == slug)).map (fun b => b.num_chunks)

/-! ## Ingest pipeline (src/flows/book_ingest.py) -/

/-- ASCII alphanumeric test (`str.isalnum` on ASCII). -/
def isAlnumAscii (c : Char) : Bool :=
  (97 ≤ c.toNat ∧ c.toNat ≤ 122) ∨ (65 ≤ c.toNat ∧ c.toNat ≤ 90) ∨
  (48 ≤ c.toNat ∧ c.toNat ≤ 57)

/-- The slug test of `validate_inputs`:
`slug and slug.replace("_", "").replace("-", "").isalnum()`
(`isalnum` of the empty string is false). -/
def validSlug (slug : String) : Bool :=
  let core := slug.data.filter (fun c => ¬ (c = '_' ∨ c = '-'))
  slug ≠ "" ∧ core ≠ [] ∧ core.all isAlnumAscii

/-- `store_to_db` from src/flows/book_ingest.py: with `force_update`, an
existing record is first deleted through `PgresStore.delete_book` (which
touches only the relational store); then the document record is written
via `store_document` and the summaries stored when both are non-falsy. -/
def store_to_db (db : DBState) (slug title doc_type : String)
    (num_chunks num_chars : Nat) (chapter_summaries : List (Nat × String))
    (book_summary : String) (force_update : Bool) : Except String (DBState × Nat) :=
  let db1 := if force_update ∧ book_exists db slug then (pg_delete_book db slug).1 else db
  let sd := store_document db1 slug title doc_type num_chunks num_chars
  if chapter_summaries ≠ [] ∧ book_summary ≠ "" then
    match store_summaries sd.1 slug chapter_summaries book_summary with
    | .ok db3 => .ok (db3, sd.2)
    | .error e => .error e
  else .ok sd

/-- `build_search_indexes`: load the persisted BM25 index if it exists,
read back its `(id, raw_text)` pairs, append the new chunks, rebuild the
index over the union and re-persist it.  Old chunks are never filtered
out here. -/
def build_search_indexes (chunks : List ChunkLT) (saved : Option BM25State) : BM25State :=
  match saved with
  | some bm =>
    let existing := (List.range bm.N).map
      (fun i => ChunkLT.mk (bm.ids.getD i "") (bm.raw_docs.getD i ""))
    build_index (existing ++ chunks)
  | none => build_index chunks

/-- The ingest pipeline `ingest_document` at the granularity the claims
need: validation (slug format and conflict-unless-force), the parsed
chunks (produced upstream by the reader), `store_to_db`, and
`build_search_indexes`.  The summaries are whatever the LLM produced
upstream.  Returns the new relational state and the new persisted lexical
index. -/
def ingest_pipeline (slug title : String) (chunks : List ChunkLT)
    (chapter_summaries : List (Nat × String)) (book_summary : String)
    (force_update : Bool) (db : DBState) (saved : Option BM25State) :
    Except String (DBState × BM25State) :=
  if ¬ validSlug slug then .error ("Invalid slug format: " ++ slug)
  else if book_exists db slug ∧ ¬ force_update then
    .error ("Book with slug '" ++ slug ++ "' already exists.")
  else
    match store_to_db db slug title "book" chunks.length
        ((chunks.map (fun c => c.text.length)).sum) chapter_summaries book_summary
        force_update with
    | .error e => .error e
    | .ok (db2, _) => .ok (db2, build_search_indexes chunks saved)

/-- Count of ids with the given slug prefix in the lexical index. -/
def slugIdCount (bm : BM25State) (slug : String) : Nat :=
  (bm.ids.filter (fun cid => strStartsWith cid (slug ++ "_"))).length

/-! ## Whole-document delete from the UI (src/ui/utils.py) -/

/-- The whole system state the delete flow touches. -/
structure SysState where
  db : DBState
  bm25 : BM25State
  qdrant : QdrantState
deriving DecidableEq, Repr

/-- The Qdrant cleanup step of `delete_book` in src/ui/utils.py evaluates
`retriever.qdrant_client` and `retriever.collection_name`, but
`FusionRetriever` (src/search/hybrid.py) defines only the attributes
`bm25`, `vec`, `alpha` and `bm25_index_path`; the attribute lookup
therefore raises `AttributeError` on every call (before any request is
sent), which the surrounding `except Exception` swallows. -/
def fusionQdrantDeleteAttempt : Except String Unit :=
  .error "AttributeError: FusionRetriever object has no attribute qdrant_client"

/-- `delete_book` from src/ui/utils.py: delete the `books` row by slug
(cascading to summaries), rebuild the BM25 index from the chunks whose ids
do not carry the slug prefix and re-persist it, then attempt the Qdrant
delete-by-filter, reporting a warning when it fails.  Returns the new
state and the `(success, message, chunks_deleted)` triple. -/
def ui_delete_book (st : SysState) (slug : String) : SysState × (Bool × String × Nat) :=
  match st.db.books.find? (fun b => b.slug == slug) with
  | none => (st, (false, "Book '" ++ slug ++ "' not found", 0))
  | some row =>
    let bids := (st.db.books.filter (fun b => b.slug == slug)).map (fun b => b.book_id)
    let db2 : DBState :=
      { books := st.db.books.filter (fun b => b.slug != slug)
        chapter_summaries := st.db.chapter_summaries.filter (fun r => ¬ r.1 ∈ bids)
        book_summaries := st.db.book_summaries.filter (fun r => ¬ r.1 ∈ bids) }
    let book_chunk_ids := st.bm25.ids.filter (fun cid => strStartsWith cid (slug ++ "_"))
    let deleted_chunks := book_chunk_ids.length
    let bm2 :=
      if book_chunk_ids ≠ [] then
        build_index
          (((List.range st.bm25.N).filter
              (fun i => ¬ strStartsWith (st.bm25.ids.getD i "") (slug ++ "_"))).map
            (fun i => ChunkLT.mk (st.bm25.ids.getD i "") (st.bm25.raw_docs.getD i "")))
      else st.bm25
    match fusionQdrantDeleteAttempt with
    | .ok _ =>
      ({ db := db2, bm25 := bm2, qdrant := st.qdrant },
       (true, "[SUCCESS] Deleted '" ++ row.title ++ "'", deleted_chunks))
    | .error e =>
      ({ db := db2, bm25 := bm2, qdrant := st.qdrant },
       (true, "[WARNING] Book '" ++ row.title ++ "' deleted, but Qdrant cleanup failed: " ++ e,
        deleted_chunks))

/-! ## Basic facts about the lexical index -/

theorem build_index_docs (chunks : List ChunkLT) :
    (build_index chunks).docs = chunks.map (fun c => simple_tokenize c.text) := rfl

theorem build_index_ids (chunks : List ChunkLT) :
    (build_index chunks).ids = chunks.map (fun c => c.id) := rfl

theorem build_index_raw_docs (chunks : List ChunkLT) :
    (build_index chunks).raw_docs = chunks.map (fun c => c.text) := rfl

theorem build_index_N (chunks : List ChunkLT) :
    (build_index chunks).N = chunks.length := by
  simp [build_index]

theorem slugIdCount_build_index (chunks : List ChunkLT) (slug : String) :
    slugIdCount (build_index chunks) slug =
      ((chunks.map (fun c => c.id)).filter (fun cid => strStartsWith cid (slug ++ "_"))).length := rfl

/-- Reading the parallel `(ids, raw_docs)` arrays of a built index back as
chunks recovers the chunk list the index was built from. -/
theorem existing_chunks_of_build_index (l : List ChunkLT) :
    (List.range (build_index l).N).map
      (fun i => ChunkLT.mk ((build_index l).ids.getD i "") ((build_index l).raw_docs.getD i ""))
      = l := by
  rw [build_index_N, build_index_ids, build_index_raw_docs]
  induction l with
  | nil => rfl
  | cons x xs ih =>
    simp only [List.length_cons, List.range_succ_eq_map, List.map_cons, List.map_map]
    refine congrArg₂ List.cons rfl ?_
    simpa [Function.comp_def] using ih

/-- `getD` through `map` below the length. -/
theorem getD_map_of_lt {l : List α} (f : α → β) (d : β) (d2 : α) {i : Nat}
    (h : i < l.length) : (l.map f).getD i d = f (l.getD i d2) := by
  rw [List.getD_eq_getElem _ _ (by simpa using h), List.getElem_map,
    List.getD_eq_getElem _ _ h]

/-! ## Claim C7: BM25 score of a document lacking the query term is
unaffected by adding another document lacking it -/

/-- C7.  For every built BM25 index, query term `w`, and indexed document
at position `idx` that does not contain `w`, rebuilding the index with one
more chunk that also does not contain `w` leaves that document's BM25 score
for the query `[w]` unchanged (the score is in fact `0` on both sides,
since the per-term contribution is skipped whenever the term frequency in
the document is zero, regardless of `idf`, `N` or `avgdl`). -/
theorem C7_bm25_score_invariant_add_doc (log : ℚ → ℚ) (chunks : List ChunkLT)
    (extra : ChunkLT) (idx : Nat) (w : String)
    (hidx : idx < chunks.length)
    (hdoc : w ∉ simple_tokenize ((chunks.getD idx ⟨"", ""⟩).text))
    (hextra : w ∉ simple_tokenize extra.text) :
    bm25_score log (build_index (chunks ++ [extra])) [w] idx =
      bm25_score log (build_index chunks) [w] idx ∧
    bm25_score log (build_index chunks) [w] idx = 0 := by
  have hdoc1 : (build_index chunks).docs.getD idx [] =
      simple_tokenize ((chunks.getD idx ⟨"", ""⟩).text) := by
    rw [build_index_docs]
    exact getD_map_of_lt _ _ ⟨"", ""⟩ hidx
  have hdoc2 : (build_index (chunks ++ [extra])).docs.getD idx [] =
      simple_tokenize ((chunks.getD idx ⟨"", ""⟩).text) := by
    rw [build_index_docs, List.map_append]
    rw [List.getD_append _ _ _ _ (by simpa using hidx)]
    exact getD_map_of_lt _ _ ⟨"", ""⟩ hidx
  have hcount : (simple_tokenize ((chunks.getD idx ⟨"", ""⟩).text)).count w = 0 :=
    List.count_eq_zero.mpr hdoc
  constructor
  · simp only [bm25_score, List.foldl_cons, List.foldl_nil]
    rw [hdoc1, hdoc2, hcount]
    simp
  · simp only [bm25_score, List.foldl_cons, List.foldl_nil]
    rw [hdoc1, hcount]
    simp

/-- Witness for C7 at a concrete index of two chunks and the absent query
term `fish`. -/
theorem C7_witness :
    (0 : Nat) < 1 ∧
    bm25_score (fun _ => 0)
        (build_index [ChunkLT.mk "c1" "cat sat", ChunkLT.mk "c2" "dog ran"]) ["fish"] 0 =
      bm25_score (fun _ => 0) (build_index [ChunkLT.mk "c1" "cat sat"]) ["fish"] 0 ∧
    bm25_score (fun _ => 0) (build_index [ChunkLT.mk "c1" "cat sat"]) ["fish"] 0 = 0 := by
  refine ⟨by decide, ?_⟩
  have h := C7_bm25_score_invariant_add_doc (fun _ => 0)
    [ChunkLT.mk "c1" "cat sat"] (ChunkLT.mk "c2" "dog ran") 0 "fish"
    (by decide) (by decide) (by decide)
  exact h

/-! ## Claim C10: empty tokenization returns the first chunks with score 0 -/

/-- Mapping `getD` over an initial range recovers a take of the list. -/
theorem range_map_pair_take (chunks : List ChunkLT) (n : Nat) (hn : n ≤ chunks.length) :
    (List.range n).map
      (fun i => SearchResult.mk ((chunks.map (fun c => c.id)).getD i "")
        ((chunks.map (fun c => c.text)).getD i "") 0) =
      (chunks.take n).map (fun c => SearchResult.mk c.id c.text 0) := by
  induction chunks generalizing n with
  | nil =>
    have : n = 0 := by simpa using hn
    subst this
    rfl
  | cons x xs ih =>
    cases n with
    | zero => rfl
    | succ m =>
      simp only [List.range_succ_eq_map, List.map_cons, List.map_map, List.take_succ_cons]
      refine congrArg₂ List.cons rfl ?_
      have := ih m (by simpa using hn)
      simpa [Function.comp_def] using this

/-- C10.  On a built index with no document filter, a query whose
tokenization is empty scores every document `0.0`; the stable sort then
preserves insertion order and the search returns the first
`min(topk, N)` indexed chunks, each with score `0`. -/
theorem C10_bm25_search_empty_tokens (log : ℚ → ℚ) (chunks : List ChunkLT)
    (query : String) (topk : Nat)
    (hN : chunks ≠ [])
    (hq : simple_tokenize query = []) :
    bm25_search log (build_index chunks) query topk none =
      (chunks.take (min topk chunks.length)).map (fun c => SearchResult.mk c.id c.text 0) ∧
    (bm25_search log (build_index chunks) query topk none).length = min topk chunks.length := by
  have hscore : ∀ i, bm25_score log (build_index chunks) (simple_tokenize query) i = 0 := by
    intro i
    simp [bm25_score, hq]
  have hmain : bm25_search log (build_index chunks) query topk none =
      (chunks.take (min topk chunks.length)).map (fun c => SearchResult.mk c.id c.text 0) := by
    simp only [bm25_search, Bool.false_eq_true, if_false]
    have hscores : (List.range (build_index chunks).N).map
        (fun i => (i, bm25_score log (build_index chunks) (simple_tokenize query) i)) =
        (List.range (build_index chunks).N).map (fun i => (i, (0 : ℚ))) := by
      apply List.map_congr_left
      intro i _
      rw [hscore]
    have hsorted : pySorted (fun a b => decide (b.2 ≤ a.2))
        ((List.range (build_index chunks).N).map (fun i => (i, (0 : ℚ)))) =
        (List.range (build_index chunks).N).map (fun i => (i, (0 : ℚ))) := by
      apply pySorted_all_true
      intro x hx y hy
      rcases List.mem_map.mp hx with ⟨i, _, hi⟩
      rcases List.mem_map.mp hy with ⟨j, _, hj⟩
      subst hi hj
      simp
    rw [hscores, hsorted, ← List.map_take, List.take_range]
    rw [List.map_map]
    rw [build_index_N, build_index_ids, build_index_raw_docs]
    exact range_map_pair_take chunks _ (Nat.min_le_right _ _)
  refine ⟨hmain, ?_⟩
  rw [hmain]
  simp [Nat.min_le_right]

/-- Witness for C10: a two-chunk index queried with the pure stopword
query `the` at `topk = 7`. -/
theorem C10_witness :
    ([ChunkLT.mk "a_1" "hello world", ChunkLT.mk "a_2" "foo bar"] ≠ ([] : List ChunkLT)) ∧
    simple_tokenize "the" = [] ∧
    bm25_search (fun _ => 0) (build_index [ChunkLT.mk "a_1" "hello world", ChunkLT.mk "a_2" "foo bar"]) "the" 7 none =
      [SearchResult.mk "a_1" "hello world" 0, SearchResult.mk "a_2" "foo bar" 0] := by
  refine ⟨by decide, by decide, ?_⟩
  have h := C10_bm25_search_empty_tokens (fun _ => 0)
    [ChunkLT.mk "a_1" "hello world", ChunkLT.mk "a_2" "foo bar"] "the" 7
    (by decide) (by decide)
  rw [h.1]
  decide

/-! ## Claim C8: weighted-rank fusion -/

theorem fuseAdd_getD (w : ℚ) (rs : List SearchResult) :
    ∀ (k : Nat) (m : List (String × ℚ)) (x : String),
      dictGetD (fuseAdd w k rs m) x = dictGetD m x + w * rankContrib x k rs := by
  induction rs with
  | nil =>
    intro k m x
    show dictGetD m x = dictGetD m x + w * 0
    ring
  | cons r rest ih =>
    intro k m x
    simp only [fuseAdd, rankContrib]
    rw [ih, dictGetD_dictAdd]
    by_cases hx : x = r.id
    · subst hx
      rw [if_pos rfl, if_pos rfl]
      ring
    · have hx2 : ¬ r.id = x := fun h => hx h.symm
      rw [if_neg hx, if_neg hx2]
      ring

theorem rankContrib_zero_of_not_mem (x : String) (l : List SearchResult) :
    ∀ k, x ∉ l.map (fun r => r.id) → rankContrib x k l = 0 := by
  induction l with
  | nil => intro k _; rfl
  | cons r rest ih =>
    intro k hx
    simp only [List.map_cons, List.mem_cons] at hx
    push_neg at hx
    have hr : ¬ r.id = x := fun h => hx.1 h.symm
    simp only [rankContrib, hr, if_false]
    rw [ih (k + 1) hx.2]
    ring

theorem rankContrib_get_of_nodup (l : List SearchResult) :
    ∀ (i : Nat) (h : i < l.length) (k : Nat),
      (l.map (fun r => r.id)).Nodup →
      rankContrib ((l.get ⟨i, h⟩).id) k l = 1 / ((k + i : Nat) : ℚ) := by
  induction l with
  | nil =>
    intro i h
    exact absurd h (by simp)
  | cons r rest ih =>
    intro i h k hnd
    simp only [List.map_cons, List.nodup_cons] at hnd
    cases i with
    | zero =>
      simp only [List.get, rankContrib, if_pos rfl]
      rw [rankContrib_zero_of_not_mem _ _ _ hnd.1]
      simp
    | succ j =>
      have hj : j < rest.length := by simpa using h
      have hne : ¬ r.id = ((rest.get ⟨j, hj⟩).id) := by
        intro hcon
        exact hnd.1 (hcon ▸ List.mem_map.mpr ⟨rest.get ⟨j, hj⟩, List.get_mem rest j hj, rfl⟩)
      simp only [List.get, rankContrib, hne, if_false]
      have := ih j hj (k + 1) hnd.2
      rw [this]
      have harith : k + 1 + j = k + (j + 1) := by omega
      rw [harith]
      ring

/-- The lexical ranking `[A, B, C]` of the spec's fusion-correctness
scenario. -/
def fusionLexC : List SearchResult := [⟨"A", "", 0⟩, ⟨"B", "", 0⟩, ⟨"C", "", 0⟩]

/-- The vector ranking `[B, D, A]` of the spec's fusion-correctness
scenario. -/
def fusionVecC : List SearchResult := [⟨"B", "", 0⟩, ⟨"D", "", 0⟩, ⟨"A", "", 0⟩]

/-- C8.  Weighted-rank fusion accumulates, for every id `x`, exactly
`alpha` times its reciprocal-rank contribution from the lexical list plus
`1 - alpha` times its contribution from the vector list; on a
duplicate-free list the contribution of the id at 0-based position `i`
(1-based rank `i+1`) is `1/(i+1)`; and on the spec's concrete scenario
(lexical `[A,B,C]`, vector `[B,D,A]`, `alpha = 0.7`) the top-2 fused ids
are `[A, B]`. -/
theorem C8_weighted_fusion :
    (∀ (alpha : ℚ) (lex vec : List SearchResult) (x : String),
      dictGetD (fusionScores alpha lex vec) x =
        alpha * rankContrib x 1 lex + (1 - alpha) * rankContrib x 1 vec) ∧
    (∀ (l : List SearchResult) (i : Nat) (h : i < l.length),
      (l.map (fun r => r.id)).Nodup →
      rankContrib ((l.get ⟨i, h⟩).id) 1 l = 1 / ((i : ℚ) + 1)) ∧
    weighted_fusion (7/10) fusionLexC fusionVecC 2 = ["A", "B"] := by
  have hconc : weighted_fusion (7/10) fusionLexC fusionVecC 2 = ["A", "B"] := by
    have hAB : ("A" : String) ≠ "B" := by decide
    have hAC : ("A" : String) ≠ "C" := by decide
    have hAD : ("A" : String) ≠ "D" := by decide
    have hBA : ("B" : String) ≠ "A" := by decide
    have hBC : ("B" : String) ≠ "C" := by decide
    have hBD : ("B" : String) ≠ "D" := by decide
    have hCA : ("C" : String) ≠ "A" := by decide
    have hCB : ("C" : String) ≠ "B" := by decide
    have hCD : ("C" : String) ≠ "D" := by decide
    have hDA : ("D" : String) ≠ "A" := by decide
    have hDB : ("D" : String) ≠ "B" := by decide
    have hDC : ("D" : String) ≠ "C" := by decide
    norm_num [weighted_fusion, fusionScores, fuseAdd, dictAdd, pySorted, insStable,
      fusionLexC, fusionVecC,
      hAB, hAC, hAD, hBA, hBC, hBD, hCA, hCB, hCD, hDA, hDB, hDC]
  refine ⟨?_, ?_, hconc⟩
  · intro alpha lex vec x
    simp only [fusionScores]
    rw [fuseAdd_getD, fuseAdd_getD]
    simp [dictGetD]
  · intro l i h hnd
    have := rankContrib_get_of_nodup l i h 1 hnd
    rw [this]
    push_cast
    ring_nf

/-- Witness for C8: the accumulated score of id `A` in the concrete
scenario and the rank-1 contribution on the duplicate-free lexical list. -/
theorem C8_witness :
    dictGetD (fusionScores (7/10) fusionLexC fusionVecC) "A" =
      (7/10) * rankContrib "A" 1 fusionLexC + (1 - 7/10) * rankContrib "A" 1 fusionVecC ∧
    rankContrib "A" 1 fusionLexC = 1 / ((0 : ℚ) + 1) := by
  constructor
  · exact C8_weighted_fusion.1 (7/10) fusionLexC fusionVecC "A"
  · have := C8_weighted_fusion.2.1 fusionLexC 0 (by decide) (by decide)
    simpa using this

/-! ## Claim C9: adaptive query preprocessing -/

theorem char_toNat_ofNat_small (n : Nat) (h : n < 55296) : (Char.ofNat n).toNat = n := by
  have hv : n.isValidChar := Or.inl h
  have hlt : n < 2 ^ 32 := by omega
  simp only [Char.ofNat, dif_pos hv, Char.ofNatAux, Char.toNat]
  simp [UInt32.toNat, BitVec.toNat_ofNatLt]

theorem lowerChar_not_upper (c : Char) : isAsciiUp (lowerChar c) = false := by
  unfold lowerChar
  by_cases h : isAsciiUp c = true
  · have hb : 65 ≤ c.toNat ∧ c.toNat ≤ 90 := by
      simpa [isAsciiUp] using h
    rw [if_pos h]
    have hofNat := char_toNat_ofNat_small (c.toNat + 32) (by omega)
    simp only [isAsciiUp, hofNat]
    simp only [decide_eq_false_iff_not]
    omega
  · rw [if_neg h]
    simpa using h

theorem runsByAux_mem (p : Char → Bool) :
    ∀ (l acc r : List Char) (c : Char),
      r ∈ runsByAux p l acc → c ∈ r → (p c = true ∧ c ∈ l) ∨ c ∈ acc := by
  intro l
  induction l with
  | nil =>
    intro acc r c hr hc
    by_cases hacc : acc = []
    · simp [runsByAux, hacc] at hr
    · simp only [runsByAux, if_neg hacc, List.mem_singleton] at hr
      subst hr
      exact Or.inr (List.mem_reverse.mp hc)
  | cons x xs ih =>
    intro acc r c hr hc
    by_cases hp : p x = true
    · simp only [runsByAux, if_pos hp] at hr
      rcases ih (x :: acc) r c hr hc with ⟨hpc, hcl⟩ | hacc
      · exact Or.inl ⟨hpc, List.mem_cons_of_mem _ hcl⟩
      · rcases List.mem_cons.mp hacc with hcx | hacc2
        · subst hcx
          exact Or.inl ⟨hp, List.mem_cons_self _ _⟩
        · exact Or.inr hacc2
    · simp only [runsByAux, if_neg hp] at hr
      by_cases hacc : acc = []
      · rw [if_pos hacc] at hr
        rcases ih [] r c hr hc with ⟨hpc, hcl⟩ | hacc2
        · exact Or.inl ⟨hpc, List.mem_cons_of_mem _ hcl⟩
        · simp at hacc2
      · rw [if_neg hacc] at hr
        rcases List.mem_cons.mp hr with hracc | hrrec
        · subst hracc
          exact Or.inr (List.mem_reverse.mp hc)
        · rcases ih [] r c hrrec hc with ⟨hpc, hcl⟩ | hacc2
          · exact Or.inl ⟨hpc, List.mem_cons_of_mem _ hcl⟩
          · simp at hacc2

theorem runsBy_mem (p : Char → Bool) (l r : List Char) (c : Char)
    (hr : r ∈ runsBy p l) (hc : c ∈ r) : p c = true ∧ c ∈ l := by
  rcases runsByAux_mem p l [] r c hr hc with h | h
  · exact h
  · simp at h

/-- Characters of any `str.split()` piece are non-whitespace characters of
the split string. -/
theorem pySplitWs_chars (s : String) (w : String) (hw : w ∈ pySplitWs s) :
    ∀ c ∈ w.data, isPySpace c = false ∧ c ∈ s.data := by
  intro c hc
  rcases List.mem_map.mp hw with ⟨r, hr, hwr⟩
  subst hwr
  have := runsBy_mem (fun c => !isPySpace c) s.data r c hr hc
  exact ⟨by simpa using this.1, this.2⟩

/-- Characters of the cleaned, lowercased query that are not whitespace are
word characters or hyphens, and never uppercase. -/
theorem cleanQuery_lower_chars (q : String) (c : Char)
    (hc : c ∈ (cleanQuery (lowerStr q)).data) (hns : isPySpace c = false) :
    (isWordChar c = true ∨ c = '-') ∧ isAsciiUp c = false := by
  simp only [cleanQuery, lowerStr] at hc
  rcases List.mem_map.mp hc with ⟨c1, hc1, hmap⟩
  by_cases hcond : (isWordChar c1 = true ∨ isPySpace c1 = true ∨ c1 = '-')
  · rw [if_pos hcond] at hmap
    subst hmap
    rcases List.mem_map.mp hc1 with ⟨c0, _, hlow⟩
    subst hlow
    refine ⟨?_, lowerChar_not_upper c0⟩
    rcases hcond with h | h | h
    · exact Or.inl h
    · rw [hns] at h
      exact absurd h (by simp)
    · exact Or.inr h
  · rw [if_neg hcond] at hmap
    subst hmap
    simp [isPySpace] at hns

/-- C9.  Preprocessing lowercases the query, strips punctuation except
hyphens, and drops stopword and length-at-most-2 tokens: the concrete
spec scenario maps to `telemachus feel suitors`; when nothing survives the
original query is returned unchanged; otherwise the output is the
space-join of the surviving words, and every surviving word is a
non-stopword of length at least 3 whose characters are word characters or
hyphens, none of them uppercase. -/
theorem C9_preprocess_query :
    preprocess_query "What does Telemachus feel about the suitors?" = "telemachus feel suitors" ∧
    (∀ q, preprocessWords q = [] → preprocess_query q = q) ∧
    (∀ q, preprocessWords q ≠ [] →
      preprocess_query q = String.intercalate " " (preprocessWords q)) ∧
    (∀ q w, w ∈ preprocessWords q →
      (¬ w ∈ ADAPTIVE_STOP_WORDS) ∧ w.length > 2 ∧
      ∀ c ∈ w.data, (isWordChar c = true ∨ c = '-') ∧ isAsciiUp c = false) := by
  refine ⟨by decide, ?_, ?_, ?_⟩
  · intro q hq
    simp [preprocess_query, hq]
  · intro q hq
    simp [preprocess_query, hq]
  · intro q w hw
    have hmem := List.mem_filter.mp hw
    have hcond := hmem.2
    simp only [decide_eq_true_eq] at hcond
    refine ⟨hcond.1, hcond.2, ?_⟩
    intro c hc
    have hchars := pySplitWs_chars _ w hmem.1 c hc
    exact cleanQuery_lower_chars q c hchars.2 hchars.1

/-- Witness for C9: the no-survivor fallback on the pure stopword query
`the`, and the per-word guarantees applied at the concrete scenario's
word `telemachus`. -/
theorem C9_witness :
    preprocess_query "the" = "the" ∧
    ((¬ "telemachus" ∈ ADAPTIVE_STOP_WORDS) ∧ ("telemachus").length > 2 ∧
      ∀ c ∈ ("telemachus").data, (isWordChar c = true ∨ c = '-') ∧ isAsciiUp c = false) := by
  constructor
  · exact C9_preprocess_query.2.1 "the" (by decide)
  · have := C9_preprocess_query.2.2.2 "What does Telemachus feel about the suitors?"
      "telemachus" (by decide)
    exact this

/-! ## Claim C5: hydration by chunk ids -/

/-- C5 (amended).  With the collection present, `get_chunks_by_ids`
produces, in request order, one entry per id whose retrieval returns a
point (the stored payload) or raises (the `"[Text not found]"` sentinel);
ids that are simply missing from the collection produce no entry at all. -/
theorem C5_get_by_ids_filterMap (pointIdOf : String → Nat) (st : QdrantState)
    (chunk_ids : List String) (hc : st.collectionExists = true) :
    get_chunks_by_ids pointIdOf st chunk_ids =
      chunk_ids.filterMap (hydrateEntry pointIdOf st) := by
  unfold get_chunks_by_ids
  rw [if_pos hc]
  suffices h : ∀ (ids : List String) (acc : List VPayload),
      ids.foldl
        (fun results cid =>
          let pid := pointIdOf cid
          if pid ∈ st.errIds then results ++ [⟨cid, "[Text not found]"⟩]
          else
            match qdrant_retrieve st pid with
            | [] => results
            | p :: _ => results ++ [⟨p.id, p.text⟩])
        acc = acc ++ ids.filterMap (hydrateEntry pointIdOf st) by
    simpa using h chunk_ids []
  intro ids
  induction ids with
  | nil => intro acc; simp
  | cons cid rest ih =>
    intro acc
    simp only [List.foldl_cons, List.filterMap_cons]
    by_cases herr : pointIdOf cid ∈ st.errIds
    · rw [ih]
      simp [hydrateEntry, herr]
    · cases hr : qdrant_retrieve st (pointIdOf cid) with
      | nil =>
        rw [ih]
        simp [hydrateEntry, herr, hr]
      | cons p ps =>
        rw [ih]
        simp [hydrateEntry, herr, hr]

/-- Counterexample to C5 as stated: a requested id absent from the
collection (with no transport error) yields no entry, not a sentinel
entry, so the result does not have one entry per requested id. -/
theorem C5_counterexample :
    get_chunks_by_ids modelPointId ⟨true, [], []⟩ ["x"] = [] ∧
    ([] : List VPayload) ≠ [⟨"x", "[Text not found]"⟩] := by
  decide

/-- Witness for C5 on a store holding `a`, erring on `e`, and missing `m`:
the found id yields its payload, the erring id yields the sentinel, and the
missing id is silently dropped. -/
theorem C5_witness :
    get_chunks_by_ids modelPointId
        ⟨true, [(modelPointId "a", ⟨"a", "T"⟩)], [modelPointId "e"]⟩ ["a", "m", "e"] =
      [⟨"a", "T"⟩, ⟨"e", "[Text not found]"⟩] := by
  have h := C5_get_by_ids_filterMap modelPointId
    ⟨true, [(modelPointId "a", ⟨"a", "T"⟩)], [modelPointId "e"]⟩ ["a", "m", "e"] rfl
  rw [h]
  decide

/-! ## Claim C6: the slug as chunk-id head -/

theorem string_mk_data (s : String) : String.mk s.data = s := by
  cases s
  rfl

theorem takeWhile_append_underscore (l rest : List Char)
    (h : ∀ c ∈ l, c ≠ '_') :
    (l ++ '_' :: rest).takeWhile (fun c => c ≠ '_') = l := by
  induction l with
  | nil => simp [List.takeWhile]
  | cons c cs ih =>
    have hc : decide (c ≠ '_') = true := decide_eq_true (h c (by simp))
    have hrest := ih (fun d hd => h d (by simp [hd]))
    simp only [List.cons_append, List.takeWhile_cons]
    simp only [decide_not] at hrest
    simp [hc, hrest]

/-- C6 (amended).  For every slug in the documented format that contains no
underscore, the chunk id's head up to the first underscore is exactly the
slug.  (The id grammar always places the slug before the first extra
underscore, but a slug that itself contains an underscore — permitted by
`[a-z0-9_-]{2,20}` — is cut short by the "up to the first underscore"
reading.) -/
theorem C6_slug_head_of_chunk_id (slug : String) (sid cid : Nat) (hs : String)
    (hfmt : slugFormatOk slug = true)
    (hnou : slug.data.all (fun c => c ≠ '_') = true) :
    upToUnderscore (chunk_id slug sid cid hs) = slug := by
  have hform : (chunk_id slug sid cid hs).data =
      slug.data ++ '_' :: (pad2 (sid + 1) ++ "_" ++ pad3 (cid + 1) ++ "_" ++ hs).data := by
    simp [chunk_id, String.data_append, List.append_assoc]
  unfold upToUnderscore
  rw [hform, takeWhile_append_underscore _ _ (by simpa [List.all_eq_true] using hnou)]

/-- Counterexample to C6 as stated: the slug `a_b` matches
`[a-z0-9_-]{2,20}`, but the chunk-id head up to the first underscore is
`a`, not `a_b`. -/
theorem C6_counterexample :
    slugFormatOk "a_b" = true ∧
    upToUnderscore (chunk_id "a_b" 0 0 "abcdef0") ≠ "a_b" := by
  decide

/-- Witness for C6 at the underscore-free slug `tst`. -/
theorem C6_witness :
    upToUnderscore (chunk_id "tst" 0 0 "abcdef0") = "tst" :=
  C6_slug_head_of_chunk_id "tst" 0 0 "abcdef0" (by decide) (by decide)

/-! ## Claim C2: `num_chunks` versus slug-prefixed ids in the lexical
index -/

theorem foldl_max_bound (l : List Nat) :
    ∀ a : Nat, a ≤ l.foldl max a ∧ ∀ x ∈ l, x ≤ l.foldl max a := by
  induction l with
  | nil => intro a; exact ⟨le_refl a, by simp⟩
  | cons y ys ih =>
    intro a
    have h := ih (max a y)
    refine ⟨le_trans (le_max_left a y) h.1, ?_⟩
    intro x hx
    rcases List.mem_cons.mp hx with hxy | hxys
    · subst hxy
      exact le_trans (le_max_right a x) h.1
    · exact h.2 x hxys

theorem find?_slug_none_of_not_exists (db : DBState) (slug : String)
    (h : book_exists db slug = false) :
    db.books.find? (fun b => b.slug == slug) = none := by
  apply List.find?_eq_none.mpr
  intro b hb hbeq
  simp only [book_exists] at h
  have hany : db.books.any (fun b => b.slug == slug) = true :=
    List.any_eq_true.mpr ⟨b, hb, hbeq⟩
  rw [h] at hany
  exact absurd hany (by simp)

theorem slugIdCount_of_build_parts (prior chunks : List ChunkLT) (slug : String)
    (hp : ∀ c ∈ prior, strStartsWith c.id (slug ++ "_") = false)
    (hc : ∀ c ∈ chunks, strStartsWith c.id (slug ++ "_") = true) :
    slugIdCount (build_index (prior ++ chunks)) slug = chunks.length := by
  rw [slugIdCount_build_index, List.map_append, List.filter_append]
  have h1 : (prior.map (fun c => c.id)).filter (fun cid => strStartsWith cid (slug ++ "_")) = [] := by
    apply List.filter_eq_nil.mpr
    intro cid hcid
    rcases List.mem_map.mp hcid with ⟨c, hcmem, hcid2⟩
    subst hcid2
    simp [hp c hcmem]
  have h2 : (chunks.map (fun c => c.id)).filter (fun cid => strStartsWith cid (slug ++ "_")) =
      chunks.map (fun c => c.id) := by
    apply List.filter_eq_self.mpr
    intro cid hcid
    rcases List.mem_map.mp hcid with ⟨c, hcmem, hcid2⟩
    subst hcid2
    simp [hc c hcmem]
  rw [h1, h2]
  simp

/-- C2 (amended).  Ingesting a document into a lexical index that holds no
id with its slug prefix records `num_chunks = n` and leaves exactly `n`
slug-prefixed ids in the index; re-ingesting the same document with
`force_update = true` still records `num_chunks = n` but leaves `2n`
slug-prefixed ids, because the forced delete removes only relational rows
while `build_search_indexes` appends the new chunks to the surviving index
contents. -/
theorem C2_num_chunks_fresh_and_forced (slug title : String) (chunks : List ChunkLT)
    (chs : List (Nat × String)) (bs : String) (db : DBState) (saved : Option BM25State)
    (hslug : validSlug slug = true)
    (hnew : book_exists db slug = false)
    (hpref : ∀ c ∈ chunks, strStartsWith c.id (slug ++ "_") = true)
    (hsaved : saved = none ∨ ∃ prior : List ChunkLT, saved = some (build_index prior) ∧
      ∀ c ∈ prior, strStartsWith c.id (slug ++ "_") = false) :
    ∃ db1 bm1 db2 bm2,
      ingest_pipeline slug title chunks chs bs false db saved = .ok (db1, bm1) ∧
      recordedNumChunks db1 slug = some chunks.length ∧
      slugIdCount bm1 slug = chunks.length ∧
      ingest_pipeline slug title chunks chs bs true db1 (some bm1) = .ok (db2, bm2) ∧
      recordedNumChunks db2 slug = some chunks.length ∧
      slugIdCount bm2 slug = 2 * chunks.length := by
  classical
  have hfind : db.books.find? (fun b => b.slug == slug) = none :=
    find?_slug_none_of_not_exists db slug hnew
  -- the fresh id assigned by the modelled insert-or-replace
  set i1 : Nat := (db.books.map (fun b => b.book_id)).foldl max 0 + 1 with hi1
  set row1 : BookRow :=
    { book_id := i1, slug := slug, title := title, doc_type := "book",
      num_chunks := chunks.length,
      num_chars := (chunks.map (fun c => c.text.length)).sum } with hrow1
  have hsd1 : store_document db slug title "book" chunks.length
      ((chunks.map (fun c => c.text.length)).sum) =
      ({ db with books := db.books ++ [row1] }, i1) := by
    simp [store_document, hfind, hrow1, hi1]
  -- the relational state after the first `store_to_db`
  have hfirst : ∃ db1, store_to_db db slug title "book" chunks.length
      ((chunks.map (fun c => c.text.length)).sum) chs bs false = .ok (db1, i1) ∧
      db1.books = db.books ++ [row1] := by
    simp only [store_to_db, Bool.false_eq_true, false_and, if_false, hsd1]
    by_cases hsb : chs ≠ [] ∧ bs ≠ ""
    · rw [if_pos hsb]
      have hresolve : resolve_book_id { db with books := db.books ++ [row1] } slug = some i1 := by
        simp [resolve_book_id, List.find?_append, hfind, hrow1]
      have hfalsy : pyFalsyNat (some i1) = false := by
        simp [pyFalsyNat, hi1]
      simp only [store_summaries, hresolve, hfalsy, Bool.false_eq_true, if_false]
      exact ⟨_, rfl, rfl⟩
    · rw [if_neg hsb]
      exact ⟨_, rfl, rfl⟩
  obtain ⟨db1, hdb1, hdb1books⟩ := hfirst
  have hrec1 : recordedNumChunks db1 slug = some chunks.length := by
    simp [recordedNumChunks, hdb1books, List.find?_append, hfind, hrow1]
  -- the lexical index after the first ingest, as a built index
  have hbm1 : ∃ L1 : List ChunkLT,
      build_search_indexes chunks saved = build_index L1 ∧
      (∀ c ∈ L1, c.id ∈ chunks.map (fun c => c.id) ∨ strStartsWith c.id (slug ++ "_") = false) ∧
      slugIdCount (build_index L1) slug = chunks.length ∧
      (∃ hd tl, L1 = hd ++ tl ∧ (∀ c ∈ hd, strStartsWith c.id (slug ++ "_") = false) ∧ tl = chunks) := by
    rcases hsaved with hnone | ⟨prior, hsome, hprior⟩
    · refine ⟨chunks, by simp [build_search_indexes, hnone], ?_, ?_, [], chunks, by simp, by simp, rfl⟩
      · intro c hc
        exact Or.inl (List.mem_map.mpr ⟨c, hc, rfl⟩)
      · have := slugIdCount_of_build_parts [] chunks slug (by simp) hpref
        simpa using this
    · refine ⟨prior ++ chunks, ?_, ?_, slugIdCount_of_build_parts prior chunks slug hprior hpref,
        prior, chunks, rfl, hprior, rfl⟩
      · rw [hsome]
        simp only [build_search_indexes]
        rw [existing_chunks_of_build_index]
      · intro c hc
        rcases List.mem_append.mp hc with hcp | hcc
        · exact Or.inr (hprior c hcp)
        · exact Or.inl (List.mem_map.mpr ⟨c, hcc, rfl⟩)
  obtain ⟨L1, hbse, _, hcount1, hd, tl, hL1split, hhd, htl⟩ := hbm1
  -- assemble the first pipeline run
  have hrun1 : ingest_pipeline slug title chunks chs bs false db saved =
      .ok (db1, build_index L1) := by
    simp only [ingest_pipeline]
    rw [if_neg (by simp [hslug]), if_neg (by simp [hnew]), hdb1, hbse]
  -- the second, forced run
  have hex1 : book_exists db1 slug = true := by
    simp [book_exists, hdb1books, hrow1]
  have hmax := foldl_max_bound (db.books.map (fun b => b.book_id)) 0
  have hid_lt : ∀ b ∈ db.books, b.book_id < i1 := by
    intro b hb
    have := hmax.2 b.book_id (List.mem_map.mpr ⟨b, hb, rfl⟩)
    omega
  have hresolve1 : resolve_book_id db1 slug = some i1 := by
    simp [resolve_book_id, hdb1books, List.find?_append, hfind, hrow1]
  have hdel : (pg_delete_book db1 slug).1.books = db.books := by
    simp only [pg_delete_book, hresolve1]
    rw [if_neg (by simp [pyFalsyNat, hi1])]
    simp only [Option.getD_some, hdb1books]
    rw [List.filter_append]
    have h1 : db.books.filter (fun b => b.book_id != i1) = db.books := by
      apply List.filter_eq_self.mpr
      intro b hb
      have := hid_lt b hb
      simp only [bne_iff_ne, ne_eq]
      omega
    have h2 : [row1].filter (fun b => b.book_id != i1) = [] := by
      simp [hrow1]
    rw [h1, h2, List.append_nil]
  -- after the forced delete the slug row is gone again
  have hfind2 : (pg_delete_book db1 slug).1.books.find? (fun b => b.slug == slug) = none := by
    rw [hdel]
    exact hfind
  set dbd := (pg_delete_book db1 slug).1 with hdbd
  set i2 : Nat := (dbd.books.map (fun b => b.book_id)).foldl max 0 + 1 with hi2
  set row2 : BookRow :=
    { book_id := i2, slug := slug, title := title, doc_type := "book",
      num_chunks := chunks.length,
      num_chars := (chunks.map (fun c => c.text.length)).sum } with hrow2
  have hsd2 : store_document dbd slug title "book" chunks.length
      ((chunks.map (fun c => c.text.length)).sum) =
      ({ dbd with books := dbd.books ++ [row2] }, i2) := by
    simp [store_document, hfind2, hrow2, hi2]
  have hsecondDb : ∃ db2, store_to_db db1 slug title "book" chunks.length
      ((chunks.map (fun c => c.text.length)).sum) chs bs true = .ok (db2, i2) ∧
      db2.books = dbd.books ++ [row2] := by
    simp only [store_to_db, hex1, eq_self_iff_true, true_and, and_self, if_true]
    rw [← hdbd, hsd2]
    by_cases hsb : chs ≠ [] ∧ bs ≠ ""
    · rw [if_pos hsb]
      have hresolve2 : resolve_book_id { dbd with books := dbd.books ++ [row2] } slug = some i2 := by
        simp [resolve_book_id, List.find?_append, hfind2, hrow2]
      have hfalsy : pyFalsyNat (some i2) = false := by
        simp [pyFalsyNat, hi2]
      simp only [store_summaries, hresolve2, hfalsy, Bool.false_eq_true, if_false]
      exact ⟨_, rfl, rfl⟩
    · rw [if_neg hsb]
      exact ⟨_, rfl, rfl⟩
  obtain ⟨db2, hdb2, hdb2books⟩ := hsecondDb
  have hrec2 : recordedNumChunks db2 slug = some chunks.length := by
    simp [recordedNumChunks, hdb2books, List.find?_append, hfind2, hrow2]
  have hrun2 : ingest_pipeline slug title chunks chs bs true db1 (some (build_index L1)) =
      .ok (db2, build_index (L1 ++ chunks)) := by
    simp only [ingest_pipeline]
    rw [if_neg (by simp [hslug]), if_neg (by simp), hdb2]
    simp only [build_search_indexes]
    rw [existing_chunks_of_build_index]
  have hcount2 : slugIdCount (build_index (L1 ++ chunks)) slug = 2 * chunks.length := by
    rw [slugIdCount_build_index, List.map_append, List.filter_append]
    have hL1part : ((L1.map (fun c => c.id)).filter (fun cid => strStartsWith cid (slug ++ "_"))).length
        = chunks.length := by
      rw [← slugIdCount_build_index]
      exact hcount1
    have hchunkpart : (chunks.map (fun c => c.id)).filter (fun cid => strStartsWith cid (slug ++ "_")) =
        chunks.map (fun c => c.id) := by
      apply List.filter_eq_self.mpr
      intro cid hcid
      rcases List.mem_map.mp hcid with ⟨c, hcmem, hcid2⟩
      subst hcid2
      simp [hpref c hcmem]
    rw [List.length_append, hL1part, hchunkpart]
    simp
    omega
  exact ⟨db1, build_index L1, db2, build_index (L1 ++ chunks), hrun1, hrec1, hcount1,
    hrun2, hrec2, hcount2⟩

/-- Two consecutive ingest runs of the same one-chunk document `bk` from a
clean state (the second run with `force_update = true`), projected to the
pair (recorded `num_chunks`, count of slug-prefixed ids in the lexical
index) after each run. -/
def c2TwoRuns : Option ((Option Nat × Nat) × (Option Nat × Nat)) :=
  match ingest_pipeline "bk" "T" [ChunkLT.mk "bk_01_001_abcdef0" "hello"] [] "" false
      ⟨[], [], []⟩ none with
  | .error _ => none
  | .ok (db1, bm1) =>
    match ingest_pipeline "bk" "T" [ChunkLT.mk "bk_01_001_abcdef0" "hello"] [] "" true
        db1 (some bm1) with
    | .error _ => none
    | .ok (db2, bm2) =>
      some ((recordedNumChunks db1 "bk", slugIdCount bm1 "bk"),
            (recordedNumChunks db2 "bk", slugIdCount bm2 "bk"))

/-- Counterexample to C2 as stated: after re-ingesting `bk` with
`force_update = true`, the record still says `num_chunks = 1` but the
lexical index holds 2 ids with the `bk_` prefix. -/
theorem C2_counterexample :
    c2TwoRuns = some ((some 1, 1), (some 1, 2)) ∧ (2 : Nat) ≠ 1 := by
  constructor
  · decide
  · decide

/-- Witness for C2 on the one-chunk document `bk` ingested into a clean
state and then force-re-ingested. -/
theorem C2_witness :
    ∃ db1 bm1 db2 bm2,
      ingest_pipeline "bk" "T" [ChunkLT.mk "bk_01_001_abcdef0" "hello"] [] "" false
        ⟨[], [], []⟩ none = .ok (db1, bm1) ∧
      recordedNumChunks db1 "bk" = some 1 ∧
      slugIdCount bm1 "bk" = 1 ∧
      ingest_pipeline "bk" "T" [ChunkLT.mk "bk_01_001_abcdef0" "hello"] [] "" true
        db1 (some bm1) = .ok (db2, bm2) ∧
      recordedNumChunks db2 "bk" = some 1 ∧
      slugIdCount bm2 "bk" = 2 := by
  have h := C2_num_chunks_fresh_and_forced "bk" "T" [ChunkLT.mk "bk_01_001_abcdef0" "hello"]
    [] "" ⟨[], [], []⟩ none (by decide) (by decide) (by decide) (Or.inl rfl)
  simpa using h

/-! ## Claim C4: conversation diversifier on ten one-speaker chunks -/

/-- Timestamp `2024-01-15 14:0i:00`, one minute apart for consecutive `i`. -/
def convTs (i : Nat) : String := "2024-01-15 14:" ++ pad2 i ++ ":00"

/-- Ten retrieved chunks, timestamps one minute apart, all from speaker
`A` — the spec's diversifier scenario. -/
def convTenOneSpeaker : List CChunk :=
  (List.range 10).map (fun i =>
    ⟨"chunk_" ++ toString i, "Text " ++ toString i,
     [("timestamp", convTs i), ("speaker", "A")]⟩)

/-- Counterexample to C4 as stated: the diversifier returns 1 chunk on the
scenario, not 2.  The first chunk is selected; the second chunk passes the
speaker check (incrementing speaker `A`'s count to 2) but is then rejected
for temporal proximity, and every later chunk is rejected by the exhausted
speaker cap. -/
theorem C4_counterexample :
    (diversify_conversation_results convTenOneSpeaker (some 5)).length ≠ 2 := by
  decide

/-- C4 (amended): on ten one-minute-apart chunks all from speaker `A` with
target 5, the diversifier returns exactly one chunk — the top-ranked one —
because a chunk rejected for temporal proximity still consumes the
speaker quota. -/
theorem C4_single_chunk_selected :
    diversify_conversation_results convTenOneSpeaker (some 5) =
      [CChunk.mk "chunk_0" "Text 0"
        [("timestamp", "2024-01-15 14:00:00"), ("speaker", "A")]] := by
  decide

/-! ## Claim C1: whole-document delete -/

/-- A system state with one ingested document `tst` (one chunk in the
lexical index and one point in the vector collection, with summaries), next
to an unrelated document chunk `oth`. -/
def c1State : SysState :=
  { db := { books := [⟨1, "tst", "Test Book", "book", 1, 11⟩]
            chapter_summaries := [(1, 1, "chapter summary")]
            book_summaries := [(1, "book summary")] }
    bm25 := build_index [ChunkLT.mk "tst_01_001_abcdef0" "hello world",
                         ChunkLT.mk "oth_01_001_1234567" "other text"]
    qdrant := { collectionExists := true
                points := [(7, ⟨"tst_01_001_abcdef0", "hello world"⟩)]
                errIds := [] } }

/-- C1.  Deleting `tst` through the UI delete flow removes every
slug-prefixed id from the lexical index and all summaries, but leaves the
vector store untouched (the Qdrant cleanup call raises `AttributeError` on
the nonexistent `FusionRetriever.qdrant_client` attribute, which is
swallowed), and the bare relational delete `PgresStore.delete_book`
removes only database rows — its signature does not even reach an index.
The message reports the Qdrant failure as a warning while still returning
success. -/
theorem C1_delete_leaves_vector_points :
    ((ui_delete_book c1State "tst").1.bm25.ids.filter
      (fun cid => strStartsWith cid "tst_")) = [] ∧
    (ui_delete_book c1State "tst").1.bm25.ids = ["oth_01_001_1234567"] ∧
    (ui_delete_book c1State "tst").1.db.chapter_summaries = [] ∧
    (ui_delete_book c1State "tst").1.db.book_summaries = [] ∧
    (ui_delete_book c1State "tst").1.qdrant = c1State.qdrant ∧
    ((ui_delete_book c1State "tst").1.qdrant.points.filter
      (fun p => strStartsWith p.2.id "tst_")).length = 1 ∧
    (ui_delete_book c1State "tst").2.1 = true ∧
    (ui_delete_book c1State "tst").2.2.1 =
      "[WARNING] Book 'Test Book' deleted, but Qdrant cleanup failed: AttributeError: FusionRetriever object has no attribute qdrant_client" ∧
    (pg_delete_book c1State.db "tst").1.books = [] ∧
    (pg_delete_book c1State.db "tst").1.chapter_summaries = [] ∧
    (pg_delete_book c1State.db "tst").1.book_summaries = [] := by
  refine ⟨by decide, by decide, by decide, by decide, by decide, by decide, by decide,
    ?_, by decide, by decide, by decide⟩
  decide

/-! ## Claim C3: the book-chapter smoke scenario -/

/-- The literal book text of the spec's smoke scenario. -/
def c3Text : String :=
  "*** START OF X ***\nCHAPTER I.\nAlpha beta gamma.\nCHAPTER II.\nDelta epsilon.\n*** END OF X ***"

/-- The remnant before the first chapter heading (section 1). -/
def c3S1 : String := "\n"

/-- The body of CHAPTER I (section 2). -/
def c3S2 : String := "\nAlpha beta gamma.\n"

/-- The body of CHAPTER II (section 3). -/
def c3S3 : String := "\nDelta epsilon.\n"

theorem c3_sections :
    section_split_chapter (strip_gutenberg c3Text) = [c3S1, c3S2, c3S3] := by
  decide

theorem pyRangeStep_one (len : Nat) (h1 : 1 ≤ len) (h2 : len ≤ 400) :
    pyRangeStep len 400 = [0] := by
  unfold pyRangeStep
  have hdiv : (len + 400 - 1) / 400 = 1 := by
    have := Nat.div_eq_of_lt_le (by omega : 1 * 400 ≤ len + 400 - 1)
      (by omega : len + 400 - 1 < (1 + 1) * 400)
    simpa using this
  rw [hdiv]
  rfl

theorem chunk_split_single (enc : String → List Nat) (dec : List Nat → String)
    (s : String) (h1 : 1 ≤ (enc s).length) (h2 : (enc s).length ≤ 400)
    (hr : dec (enc s) = s) : chunk_split enc dec 500 100 s = [s] := by
  simp only [chunk_split]
  rw [show (500 - 100 : Nat) = 400 from rfl, pyRangeStep_one _ h1 h2]
  simp only [List.map_cons, List.map_nil, List.drop_zero]
  rw [List.take_of_length_le (le_trans h2 (by norm_num)), hr]

theorem idShapeOk_chunk_id_tst (sid : Nat) (d : Char) (ds : List Char) (hs : String)
    (hpad : pad2 (sid + 1) = String.mk ['0', d]) (hd : d ∈ ds)
    (hlen : hs.data.length = 7) (hhex : hs.data.all isHexChar = true) :
    idShapeOk "tst" ds (chunk_id "tst" sid 0 hs) = true := by
  have h1 : ("tst" : String).data = ['t', 's', 't'] := rfl
  have h2 : ("_" : String).data = ['_'] := rfl
  have h3 : (pad3 (0 + 1)).data = ['0', '0', '1'] := rfl
  have h4 : (pad2 (sid + 1)).data = ['0', d] := by rw [hpad]
  have hdata : (chunk_id "tst" sid 0 hs).data =
      't' :: 's' :: 't' :: '_' :: '0' :: d :: '_' :: '0' :: '0' :: '1' :: '_' :: hs.data := by
    simp [chunk_id, String.data_append, h1, h2, h3, h4]
  unfold idShapeOk
  rw [hdata]
  exact decide_eq_true ⟨rfl, rfl, hd, rfl, hlen, hhex⟩

/-- C3 (amended).  On the smoke-scenario text with slug `tst` and split
pattern `CHAPTER [IVX]+.` at line starts, the reader produces exactly
three structural units — the remnant before the first heading becomes
unit 1 — and exactly three chunks, with ids
`tst_01_001_h(s1)`, `tst_02_001_h(s2)`, `tst_03_001_h(s3)` matching
the 7-hex-digit id shape; the two content chunks are units 2 and 3.
The statement is parametric in the deterministic tokenizer (`enc`, `dec`)
and content hash, assuming only that each tiny section round-trips within
the 400-token stride and that the hash emits 7 hex digits. -/
theorem C3_three_units_three_chunks (enc : String → List Nat) (dec : List Nat → String)
    (hash : String → String)
    (he1 : 1 ≤ (enc c3S1).length) (hb1 : (enc c3S1).length ≤ 400) (hr1 : dec (enc c3S1) = c3S1)
    (he2 : 1 ≤ (enc c3S2).length) (hb2 : (enc c3S2).length ≤ 400) (hr2 : dec (enc c3S2) = c3S2)
    (he3 : 1 ≤ (enc c3S3).length) (hb3 : (enc c3S3).length ≤ 400) (hr3 : dec (enc c3S3) = c3S3)
    (hh : ∀ s, (hash s).data.length = 7 ∧ (hash s).data.all isHexChar = true) :
    section_split_chapter (strip_gutenberg c3Text) = [c3S1, c3S2, c3S3] ∧
    gutenberg_parse enc dec hash "tst" c3Text 500 100 =
      [⟨chunk_id "tst" 0 0 (hash c3S1), c3S1, (enc c3S1).length, c3S1.length⟩,
       ⟨chunk_id "tst" 1 0 (hash c3S2), c3S2, (enc c3S2).length, c3S2.length⟩,
       ⟨chunk_id "tst" 2 0 (hash c3S3), c3S3, (enc c3S3).length, c3S3.length⟩] ∧
    ∀ c ∈ gutenberg_parse enc dec hash "tst" c3Text 500 100,
      idShapeOk "tst" ['1', '2', '3'] c.id = true := by
  have hparse : gutenberg_parse enc dec hash "tst" c3Text 500 100 =
      [⟨chunk_id "tst" 0 0 (hash c3S1), c3S1, (enc c3S1).length, c3S1.length⟩,
       ⟨chunk_id "tst" 1 0 (hash c3S2), c3S2, (enc c3S2).length, c3S2.length⟩,
       ⟨chunk_id "tst" 2 0 (hash c3S3), c3S3, (enc c3S3).length, c3S3.length⟩] := by
    unfold gutenberg_parse
    rw [c3_sections]
    unfold parse_into_chunks
    rw [show [c3S1, c3S2, c3S3].enum = [(0, c3S1), (1, c3S2), (2, c3S3)] from rfl]
    simp only [List.flatMap_cons, List.flatMap_nil]
    rw [chunk_split_single enc dec c3S1 he1 hb1 hr1,
        chunk_split_single enc dec c3S2 he2 hb2 hr2,
        chunk_split_single enc dec c3S3 he3 hb3 hr3]
    simp [List.enum]
  refine ⟨c3_sections, hparse, ?_⟩
  intro c hc
  rw [hparse] at hc
  have hp1 : pad2 (0 + 1) = String.mk ['0', '1'] := rfl
  have hp2 : pad2 (1 + 1) = String.mk ['0', '2'] := rfl
  have hp3 : pad2 (2 + 1) = String.mk ['0', '3'] := rfl
  simp only [List.mem_cons, List.mem_singleton, List.not_mem_nil] at hc
  rcases hc with hc | hc | hc | hc
  · subst hc
    exact idShapeOk_chunk_id_tst 0 '1' _ _ hp1 (by decide) (hh c3S1).1 (hh c3S1).2
  · subst hc
    exact idShapeOk_chunk_id_tst 1 '2' _ _ hp2 (by decide) (hh c3S2).1 (hh c3S2).2
  · subst hc
    exact idShapeOk_chunk_id_tst 2 '3' _ _ hp3 (by decide) (hh c3S3).1 (hh c3S3).2
  · cases hc

/-- Counterexample to C3 as stated: with the concrete character-level
tokenizer instance and the deterministic model hash, the scenario yields
three sections and three chunks — not two — and the third chunk id fails
the claimed shape `tst_0[12]_001_hex7`. -/
theorem C3_counterexample :
    (section_split_chapter (strip_gutenberg c3Text)).length = 3 ∧
    (gutenberg_parse charEnc charDec modelHash "tst" c3Text 500 100).length = 3 ∧
    ((gutenberg_parse charEnc charDec modelHash "tst" c3Text 500 100).map
      (fun c => idShapeOk "tst" ['1', '2'] c.id)) = [true, true, false] := by
  refine ⟨by decide, by decide, by decide⟩

theorem isHexChar_hexDigit (m : Nat) (hm : m < 16) : isHexChar (hexDigit m) = true := by
  unfold hexDigit
  by_cases hsmall : m < 10
  · rw [if_pos hsmall]
    have := char_toNat_ofNat_small (48 + m) (by omega)
    simp only [isHexChar, this, decide_eq_true_eq]
    omega
  · rw [if_neg hsmall]
    have := char_toNat_ofNat_small (87 + m) (by omega)
    simp only [isHexChar, this, decide_eq_true_eq]
    omega

/-- The model hash always emits exactly 7 lowercase hex digits. -/
theorem modelHash_shape (s : String) :
    (modelHash s).data.length = 7 ∧ (modelHash s).data.all isHexChar = true := by
  constructor
  · simp [modelHash, toHex7]
  · simp only [modelHash, toHex7, List.all_eq_true]
    intro c hc
    obtain ⟨i, _, hieq⟩ := List.mem_map.mp hc
    rw [← hieq]
    exact isHexChar_hexDigit _ (Nat.mod_lt _ (by norm_num))

/-- Witness for C3: the character-level tokenizer instance and the model
hash satisfy the amended theorem's hypotheses on the three sections. -/
theorem C3_witness :
    (1 ≤ (charEnc c3S1).length ∧ (charEnc c3S1).length ≤ 400 ∧ charDec (charEnc c3S1) = c3S1) ∧
    (1 ≤ (charEnc c3S2).length ∧ (charEnc c3S2).length ≤ 400 ∧ charDec (charEnc c3S2) = c3S2) ∧
    (1 ≤ (charEnc c3S3).length ∧ (charEnc c3S3).length ≤ 400 ∧ charDec (charEnc c3S3) = c3S3) ∧
    gutenberg_parse charEnc charDec modelHash "tst" c3Text 500 100 =
      [⟨chunk_id "tst" 0 0 (modelHash c3S1), c3S1, (charEnc c3S1).length, c3S1.length⟩,
       ⟨chunk_id "tst" 1 0 (modelHash c3S2), c3S2, (charEnc c3S2).length, c3S2.length⟩,
       ⟨chunk_id "tst" 2 0 (modelHash c3S3), c3S3, (charEnc c3S3).length, c3S3.length⟩] := by
  refine ⟨⟨by decide, by decide, by decide⟩, ⟨by decide, by decide, by decide⟩,
    ⟨by decide, by decide, by decide⟩, ?_⟩
  exact (C3_three_units_three_chunks charEnc charDec modelHash
    (by decide) (by decide) (by decide) (by decide) (by decide) (by decide)
    (by decide) (by decide) (by decide) modelHash_shape).2.1

end DocMate
